import Mathlib

/-!
# Verification of the pySecp256k1 Schnorr signature module

This file gives a shallow embedding of `pySecp256k1/schnorr.py` (BIP-340
Schnorr signatures over secp256k1 plus the legacy bcrypto 4.10 variant) and
proves properties of it.

The module imports its elliptic-curve arithmetic, SHA-256, byte codecs and
the SEC1 public-key decoder from an external package (`from . import *`);
those collaborators are modelled here from the specification, as noted in
the doc comment of each such definition.  Bytes are modelled as lists of
naturals (each entry a byte value), machine integers as `Nat`.
-/

set_option maxHeartbeats 16000000

namespace Secp256k1

/-- Byte strings: lists of byte values. -/
abbrev Bytes := List Nat

/-- Modelled from the spec: the secp256k1 field prime `p` owned by the external
curve-arithmetic collaborator (process-wide read-only constant). -/
def p : Nat := 115792089237316195423570985008687907853269984665640564039457584007908834671663

/-- Modelled from the spec: the secp256k1 group order `n` owned by the external
curve-arithmetic collaborator (process-wide read-only constant). -/
def n : Nat := 115792089237316195423570985008687907852837564279074904382605163141518161494337

/-- Modelled from the spec: x-coordinate of the secp256k1 generator point `G`. -/
def Gx : Nat := 55066263022277343669578718895168534326250603453777594175500187360389116729240

/-- Modelled from the spec: y-coordinate of the secp256k1 generator point `G`. -/
def Gy : Nat := 32670510020758816978083085130507043184471273380659243275938904335757337482424

/-- Points: an affine pair of coordinates, or `none` for the point at infinity
(spec §3: "a pair (x, y) of field elements on the curve, or a distinguished
point-at-infinity value"). -/
abbrev Pt := Option (Nat × Nat)

/-- The generator point. -/
def G : Pt := some (Gx, Gy)

/-- Binary modular exponentiation with explicit fuel (the fuel bounds the bit
length of the exponent).  Used to model the external collaborator's modular
inverse (Fermat) and square-root computations executably. -/
def powMod : Nat → Nat → Nat → Nat → Nat
  | 0, _, _, m => 1 % m
  | f + 1, a, k, m =>
    if k = 0 then 1 % m
    else
      let r := powMod f (a * a % m) (k / 2) m
      if k % 2 = 1 then r * a % m else r

/-- Modular inverse in the secp256k1 base field, via Fermat's little theorem. -/
def inv_mod (a : Nat) : Nat := powMod 256 (a % p) (p - 2) p

/-- Field addition modulo `p`. -/
def addm (a b : Nat) : Nat := (a + b) % p

/-- Field subtraction modulo `p` (total on `Nat`). -/
def subm (a b : Nat) : Nat := (a + (p - b % p)) % p

/-- Field multiplication modulo `p`. -/
def mulm (a b : Nat) : Nat := a * b % p

/-- Modelled from the spec: affine point addition on secp256k1 (`y² = x³ + 7`),
the external curve-arithmetic collaborator's group operation (secant/tangent
rule, spec glossary and §6 "OUT OF SCOPE ... point addition, doubling").
Coordinates are kept reduced modulo `p`. -/
def point_add : Pt → Pt → Pt
  | none, Q => Q
  | P, none => P
  | some (x₁, y₁), some (x₂, y₂) =>
    if x₁ = x₂ then
      if (y₁ + y₂) % p = 0 then none
      else
        let lam := mulm (mulm 3 (mulm x₁ x₁)) (inv_mod (mulm 2 y₁))
        let x₃ := subm (subm (mulm lam lam) x₁) x₂
        some (x₃, subm (mulm lam (subm x₁ x₃)) y₁)
    else
      let lam := mulm (subm y₁ y₂) (inv_mod (subm x₁ x₂))
      let x₃ := subm (subm (mulm lam lam) x₁) x₂
      some (x₃, subm (mulm lam (subm x₁ x₃)) y₁)

/-- Modelled from the spec: double-and-add scalar multiplication, the external
collaborator's scalar multiply.  The fuel bounds the bit length of the
scalar. -/
def point_mul : Nat → Pt → Nat → Pt
  | 0, _, _ => none
  | f + 1, P, k =>
    if k = 0 then none
    else
      let r := point_mul f (point_add P P) (k / 2)
      if k % 2 = 1 then point_add r P else r

/-- `G * k`: scalar multiples of the generator (scalars are below `2 ^ 256`). -/
def mulG (k : Nat) : Pt := point_mul 256 G k

/-- x-coordinate accessor (`P.x` / `P[0]` in the source; `0` on infinity,
which the source never reaches on the paths proved below). -/
def ptX : Pt → Nat
  | none => 0
  | some (x, _) => x

/-- y-coordinate accessor (`P.y` / `P[1]` in the source). -/
def ptY : Pt → Nat
  | none => 0
  | some (_, y) => y

/-- Modelled from the spec: the BIP-340 evenness test on a point's
y-coordinate (`has_even_y` collaborator).  Arbitrarily `false` at infinity;
all uses below are at finite points. -/
def has_even_y : Pt → Bool
  | none => false
  | some (_, y) => y % 2 = 0

/-- Modelled from the spec: quadratic-residue test on a field element via
Euler's criterion (`is_quad` collaborator used by the legacy variant). -/
def is_quad (y : Nat) : Bool := powMod 256 (y % p) ((p - 1) / 2) p = 1

/-- Big-endian byte encoding of a natural in a fixed width. -/
def beBytes : Nat → Nat → Bytes
  | 0, _ => []
  | w + 1, v => beBytes w (v / 256) ++ [v % 256]

/-- Modelled from the spec: `bytes_from_int`, the 32-byte big-endian scalar
encoding of the external codec. -/
def bytes_from_int (x : Nat) : Bytes := beBytes 32 x

/-- Modelled from the spec: `int_from_bytes`, big-endian bytes-to-integer
decoding of the external codec. -/
def int_from_bytes (b : Bytes) : Nat := b.foldl (fun acc d => acc * 256 + d) 0

/-- `bytes_from_point` from the source: the x-only encoding
`bytes_from_int(P[0])`. -/
def bytes_from_point (P : Pt) : Bytes := bytes_from_int (ptX P)

/-- Modelled from the spec: `xor_bytes`, bytewise XOR of the external codec. -/
def xor_bytes (a b : Bytes) : Bytes := List.zipWith (fun x y => x ^^^ y) a b

/-- Modelled from the spec (§4.1): `lift_x` decodes an x-only public key,
selecting the even-`y` point, or `none` when `x` is not the x-coordinate of a
curve point (square root via `c ^ ((p+1)/4)`, `p ≡ 3 mod 4`). -/
def lift_x (b : Bytes) : Pt :=
  let x := int_from_bytes b
  if p ≤ x then none
  else
    let c := (x * x % p * x + 7) % p
    let y := powMod 256 c ((p + 1) / 4) p
    if y * y % p = c then some (x, if y % 2 = 0 then y else p - y)
    else none

/-! ### SHA-256 (modelled from the spec: the external 32-byte hash primitive) -/

/-- 32-bit right rotation. -/
def rotr (x s : Nat) : Nat := ((x >>> s) ||| (x <<< (32 - s))) % 4294967296

/-- SHA-256 lowercase sigma 0. -/
def ssig0 (x : Nat) : Nat := (rotr x 7) ^^^ (rotr x 18) ^^^ (x >>> 3)

/-- SHA-256 lowercase sigma 1. -/
def ssig1 (x : Nat) : Nat := (rotr x 17) ^^^ (rotr x 19) ^^^ (x >>> 10)

/-- SHA-256 uppercase Sigma 0. -/
def bsig0 (x : Nat) : Nat := (rotr x 2) ^^^ (rotr x 13) ^^^ (rotr x 22)

/-- SHA-256 uppercase Sigma 1. -/
def bsig1 (x : Nat) : Nat := (rotr x 6) ^^^ (rotr x 11) ^^^ (rotr x 25)

/-- SHA-256 choice function. -/
def chF (x y z : Nat) : Nat := (x &&& y) ^^^ ((4294967295 - x) &&& z)

/-- SHA-256 majority function. -/
def majF (x y z : Nat) : Nat := (x &&& y) ^^^ (x &&& z) ^^^ (y &&& z)

/-- SHA-256 round constants. -/
def shaK : List Nat :=
  [1116352408, 1899447441, 3049323471, 3921009573, 961987163, 1508970993,
   2453635748, 2870763221, 3624381080, 310598401, 607225278, 1426881987,
   1925078388, 2162078206, 2614888103, 3248222580, 3835390401, 4022224774,
   264347078, 604807628, 770255983, 1249150122, 1555081692, 1996064986,
   2554220882, 2821834349, 2952996808, 3210313671, 3336571891, 3584528711,
   113926993, 338241895, 666307205, 773529912, 1294757372, 1396182291,
   1695183700, 1986661051, 2177026350, 2456956037, 2730485921, 2820302411,
   3259730800, 3345764771, 3516065817, 3600352804, 4094571909, 275423344,
   430227734, 506948616, 659060556, 883997877, 958139571, 1322822218,
   1537002063, 1747873779, 1955562222, 2024104815, 2227730452, 2361852424,
   2428436474, 2756734187, 3204031479, 3329325298]

/-- Group bytes into big-endian 32-bit words. -/
def toWords : Bytes → List Nat
  | b0 :: b1 :: b2 :: b3 :: rest => (((b0 * 256 + b1) * 256 + b2) * 256 + b3) :: toWords rest
  | _ => []

/-- SHA-256 message padding: append `0x80`, zeros, and the 64-bit bit length. -/
def shaPad (msg : Bytes) : Bytes :=
  msg ++ 128 :: List.replicate ((119 - msg.length % 64) % 64) 0 ++ beBytes 8 (msg.length * 8)

/-- Extend a 16-word block to the 64-word message schedule (48 fuel steps). -/
def extendSched : Nat → List Nat → List Nat
  | 0, w => w
  | f + 1, w =>
    let t := w.length
    let nw := (ssig1 (w.getD (t - 2) 0) + w.getD (t - 7) 0 +
               ssig0 (w.getD (t - 15) 0) + w.getD (t - 16) 0) % 4294967296
    extendSched f (w ++ [nw])

/-- SHA-256 working state: eight 32-bit words. -/
abbrev St8 := Nat × Nat × Nat × Nat × Nat × Nat × Nat × Nat

/-- One SHA-256 compression round. -/
def shaRound (st : St8) (kv wv : Nat) : St8 :=
  let (a, b, c, d, e, f, g, h) := st
  let t1 := (h + bsig1 e + chF e f g + kv + wv) % 4294967296
  let t2 := (bsig0 a + majF a b c) % 4294967296
  ((t1 + t2) % 4294967296, a, b, c, (d + t1) % 4294967296, e, f, g)

/-- Run the 64 compression rounds over paired constants and schedule words. -/
def shaRounds : List Nat → List Nat → St8 → St8
  | kv :: ks, wv :: ws, st => shaRounds ks ws (shaRound st kv wv)
  | _, _, st => st

/-- Add two SHA-256 states word-wise modulo `2 ^ 32`. -/
def addSt (s t : St8) : St8 :=
  let (a, b, c, d, e, f, g, h) := s
  let (a', b', c', d', e', f', g', h') := t
  ((a + a') % 4294967296, (b + b') % 4294967296, (c + c') % 4294967296,
   (d + d') % 4294967296, (e + e') % 4294967296, (f + f') % 4294967296,
   (g + g') % 4294967296, (h + h') % 4294967296)

/-- Compress one 16-word block into the chaining state. -/
def shaBlock (block : List Nat) (st : St8) : St8 :=
  addSt st (shaRounds shaK (extendSched 48 block) st)

/-- Process 16-word blocks (fuel-bounded by the word count). -/
def shaBlocks : Nat → List Nat → St8 → St8
  | 0, _, st => st
  | f + 1, ws, st =>
    match ws with
    | [] => st
    | _ => shaBlocks f (ws.drop 16) (shaBlock (ws.take 16) st)

/-- The SHA-256 initial state. -/
def shaInit : St8 :=
  (1779033703, 3144134277, 1013904242, 2773480762,
   1359893119, 2600822924, 528734635, 1541459225)

/-- Modelled from the spec: `hash_sha256`, the external SHA-256 primitive
(`H`), returning 32 bytes. -/
def hash_sha256 (msg : Bytes) : Bytes :=
  let ws := toWords (shaPad msg)
  let (a, b, c, d, e, f, g, h) := shaBlocks ws.length ws shaInit
  beBytes 4 a ++ beBytes 4 b ++ beBytes 4 c ++ beBytes 4 d ++
  beBytes 4 e ++ beBytes 4 f ++ beBytes 4 g ++ beBytes 4 h

/-! ### The Schnorr module (`pySecp256k1/schnorr.py`) -/

/-- Hash primitives are passed explicitly: the module's hash is the external
SHA-256 collaborator, instantiated as `hash_sha256` for the concrete
operations. -/
abbrev Hash := Bytes → Bytes

/-- The two failure classes of the module (spec §7): `invalidInput` models a
raised `ValueError`, `internalFailure` a raised `RuntimeError`. -/
inductive SchnorrError
  | invalidInput
  | internalFailure
deriving DecidableEq, Repr

/-- ASCII bytes of the tag `"BIP0340/aux"`. -/
def tagAux : Bytes := [66, 73, 80, 48, 51, 52, 48, 47, 97, 117, 120]

/-- ASCII bytes of the tag `"BIP0340/nonce"`. -/
def tagNonce : Bytes := [66, 73, 80, 48, 51, 52, 48, 47, 110, 111, 110, 99, 101]

/-- ASCII bytes of the tag `"BIP0340/challenge"`. -/
def tagChallenge : Bytes := [66, 73, 80, 48, 51, 52, 48, 47, 99, 104, 97, 108, 108, 101, 110, 103, 101]

/-- Modelled from the spec (§4.2): `tagged_hash(tag, data) = H(H(tag) || H(tag) || data)`. -/
def tagged_hashH (H : Hash) (tag data : Bytes) : Bytes := H (H tag ++ H tag ++ data)

/-- `tagged_hash` with the concrete SHA-256 primitive. -/
def tagged_hash (tag data : Bytes) : Bytes := tagged_hashH hash_sha256 tag data

/-- The normalized secret key of `sign` (line `seckey = seckey0 if
has_even_y(P) else n - seckey0` of the source, with `P = G * seckey0`). -/
def sign_seckey (seckey0 : Nat) : Nat :=
  if has_even_y (mulG seckey0) then seckey0 else n - seckey0

/-- The nonce scalar `k0` derived by `sign` (source lines 135-145): aux
randomness (or fresh entropy `rand` when absent) is tag-hashed, XORed into the
normalized secret, and tag-hashed with the x-only public key and message. -/
def sign_nonce (H : Hash) (rand : Nat) (msg seckey0B : Bytes) (aux_rand : Option Bytes) : Nat :=
  let seckey0 := int_from_bytes seckey0B
  let P := mulG seckey0
  let t := xor_bytes (bytes_from_int (sign_seckey seckey0))
    (tagged_hashH H tagAux (aux_rand.getD (bytes_from_int rand)))
  int_from_bytes (tagged_hashH H tagNonce (t ++ bytes_from_point P ++ msg)) % n

/-- `sign` of the source (BIP-340 signer), over an explicit hash primitive `H`
and an explicit entropy value `rand` (the value `rand_k()` would return,
consulted only when `aux_rand` is absent). -/
def signH (H : Hash) (rand : Nat) (msg seckey0B : Bytes) (aux_rand : Option Bytes) :
    Except SchnorrError Bytes :=
  if msg.length ≠ 32 then .error .invalidInput
  else
    let seckey0 := int_from_bytes seckey0B
    if ¬(1 ≤ seckey0 ∧ seckey0 ≤ n - 1) then .error .invalidInput
    else
      let P := mulG seckey0
      let seckey := sign_seckey seckey0
      let k0 := sign_nonce H rand msg seckey0B aux_rand
      if k0 = 0 then .error .internalFailure
      else
        let R := mulG k0
        let k := if ¬ has_even_y R then n - k0 else k0
        let r := bytes_from_point R
        let e := int_from_bytes (tagged_hashH H tagChallenge (r ++ bytes_from_point P ++ msg)) % n
        .ok (r ++ bytes_from_int ((k + e * seckey) % n))

/-- `sign` with the concrete SHA-256 primitive. -/
def sign (rand : Nat) (msg seckey0B : Bytes) (aux_rand : Option Bytes) :
    Except SchnorrError Bytes :=
  signH hash_sha256 rand msg seckey0B aux_rand

/-- `verify` of the source (BIP-340 verifier), over an explicit hash
primitive. -/
def verifyH (H : Hash) (msg pubkey sig : Bytes) : Except SchnorrError Bool :=
  if msg.length ≠ 32 then .error .invalidInput
  else if pubkey.length ≠ 32 then .error .invalidInput
  else if sig.length ≠ 64 then .error .invalidInput
  else
    match lift_x pubkey with
    | none => .ok false
    | some P =>
      let r := int_from_bytes (sig.take 32)
      let s := int_from_bytes (sig.drop 32)
      if p ≤ r ∨ n ≤ s then .ok false
      else
        let e := int_from_bytes (tagged_hashH H tagChallenge (sig.take 32 ++ pubkey ++ msg)) % n
        match point_add (mulG s) (point_mul 256 (some P) (n - e)) with
        | none => .ok false
        | some (Rx, Ry) => if Ry % 2 = 0 ∧ Rx = r then .ok true else .ok false

/-- `verify` with the concrete SHA-256 primitive. -/
def verify (msg pubkey sig : Bytes) : Except SchnorrError Bool :=
  verifyH hash_sha256 msg pubkey sig

/-- `bcrypto410_sign` of the source (legacy signer), over an explicit hash
primitive.  `encoded_from_point` below models the external SEC1 compressed
encoding used in its challenge hash. -/
def encoded_from_point : Pt → Bytes
  | none => [0]
  | some (x, y) => (if y % 2 = 0 then 2 else 3) :: bytes_from_int x

/-- The nonce scalar `k0` derived by `bcrypto410_sign` (source line 63):
`int(H(seckey0 || msg)) mod n`, with no tag and no auxiliary randomness. -/
def bcrypto410_nonce (H : Hash) (msg seckey0B : Bytes) : Nat :=
  int_from_bytes (H (seckey0B ++ msg)) % n

/-- `bcrypto410_sign` of the source (legacy signer). -/
def bcrypto410_signH (H : Hash) (msg seckey0B : Bytes) : Except SchnorrError Bytes :=
  if msg.length ≠ 32 then .error .invalidInput
  else
    let seckey := int_from_bytes seckey0B
    if ¬(1 ≤ seckey ∧ seckey ≤ n - 1) then .error .invalidInput
    else
      let k0 := bcrypto410_nonce H msg seckey0B
      if k0 = 0 then .error .internalFailure
      else
        let R := mulG k0
        let Rraw := bytes_from_int (ptX R)
        let e := int_from_bytes (H (Rraw ++ encoded_from_point (mulG seckey) ++ msg)) % n
        let k := if ¬ is_quad (ptY R) then n - k0 else k0
        .ok (Rraw ++ bytes_from_int ((k + e * seckey) % n))

/-- `bcrypto410_sign` with the concrete SHA-256 primitive. -/
def bcrypto410_sign (msg seckey0B : Bytes) : Except SchnorrError Bytes :=
  bcrypto410_signH hash_sha256 msg seckey0B

/-- Modelled from the spec: the external `PublicKey.decode` SEC1 decoder used
by the legacy verifier.  Wrong-length buffers (neither 33 nor 65 bytes) are an
invalid-input failure (spec §6/§7); a well-lengthed buffer that does not
decode to a curve point is an expected cryptographic failure and yields
`none` (spec §7 "bad point decode" is not an error). -/
def PublicKey_decode (b : Bytes) : Except SchnorrError (Option (Nat × Nat)) :=
  if b.length = 33 then
    let pre := b.headD 0
    if pre = 2 ∨ pre = 3 then
      let x := int_from_bytes (b.drop 1)
      if p ≤ x then .ok none
      else
        let c := (x * x % p * x + 7) % p
        let y := powMod 256 c ((p + 1) / 4) p
        if y * y % p = c then
          .ok (some (x, if (y % 2 = 0) = (pre = 2) then y else p - y))
        else .ok none
    else .ok none
  else if b.length = 65 then
    let pre := b.headD 0
    if pre = 4 then
      let x := int_from_bytes ((b.drop 1).take 32)
      let y := int_from_bytes (b.drop 33)
      if x < p ∧ y < p ∧ y * y % p = (x * x % p * x + 7) % p then .ok (some (x, y))
      else .ok none
    else .ok none
  else .error .invalidInput

/-- `bcrypto410_verify` of the source (legacy verifier), over an explicit hash
primitive. -/
def bcrypto410_verifyH (H : Hash) (msg pubkey sig : Bytes) : Except SchnorrError Bool :=
  if msg.length ≠ 32 then .error .invalidInput
  else if sig.length ≠ 64 then .error .invalidInput
  else
    match PublicKey_decode pubkey with
    | .error err => .error err
    | .ok none => .ok false
    | .ok (some P) =>
      let r := int_from_bytes (sig.take 32)
      let s := int_from_bytes (sig.drop 32)
      if p ≤ r ∨ n ≤ s then .ok false
      else
        let e := int_from_bytes (H (sig.take 32 ++ pubkey ++ msg)) % n
        match point_add (mulG s) (point_mul 256 (some P) (n - e)) with
        | none => .ok false
        | some (Rx, Ry) => if is_quad Ry ∧ Rx = r then .ok true else .ok false

/-- `bcrypto410_verify` with the concrete SHA-256 primitive. -/
def bcrypto410_verify (msg pubkey sig : Bytes) : Except SchnorrError Bool :=
  bcrypto410_verifyH hash_sha256 msg pubkey sig

/-- The x-only public key matching a secret scalar (spec §8:
`xOnlyPubkey(d0)`; the 32-byte encoding of `G * d0`). -/
def xOnlyPubkey (d0 : Nat) : Bytes := bytes_from_point (mulG d0)

/-! ### Known test vector (spec §8, BIP-340 vector 0) -/

/-- The 32-byte all-zero message of the known-vector regression. -/
def msg0 : Bytes := List.replicate 32 0

/-- The 32-byte all-zero auxiliary randomness of the known-vector regression. -/
def aux0 : Bytes := List.replicate 32 0

/-- The public key stated by the spec for secret key 3:
`F9308A019258C31049344F85F89D5229B531C845836F99B08601F113BCE036F9`. -/
def pkVec : Bytes := beBytes 32 0xF9308A019258C31049344F85F89D5229B531C845836F99B08601F113BCE036F9

/-- The signature the signer actually produces on the known vector
(`E907…D310536C0`, 128 hex digits). -/
def sigVec : Bytes :=
  beBytes 64 0xE907831F80848D1069A5371B402410364BDF1C5F8307B0084C55F1CE2DCA821525F66A4A85EA8B71E482A74F382D2CE5EBEEE8FDB2172F477DF4900D310536C0

/-- The 127-hex-digit signature value literally stated by the spec
(`E907…D310536C`, one digit short), read as an integer and encoded in the
64-byte signature format. -/
def sigStated : Bytes :=
  beBytes 64 0xE907831F80848D1069A5371B402410364BDF1C5F8307B0084C55F1CE2DCA821525F66A4A85EA8B71E482A74F382D2CE5EBEEE8FDB2172F477DF4900D310536C

/-! ### The abstract secp256k1 curve over `ZMod p`

The executable point operations above are related to Mathlib's affine
Weierstrass points, through which the group-law reasoning runs. -/

/-- The secp256k1 Weierstrass curve `y² = x³ + 7` over the field `ZMod p`. -/
def W : WeierstrassCurve.Affine (ZMod p) :=
  { a₁ := 0, a₂ := 0, a₃ := 0, a₄ := 0, a₆ := 7 }

/-- Refinement relation between executable points and abstract points of `W`:
infinity corresponds to zero, and a finite executable point corresponds to the
nonsingular abstract point with the same (reduced) coordinates. -/
def Rel : Pt → W.Point → Prop
  | none, Q => Q = 0
  | some (x, y), Q => x < p ∧ y < p ∧
      ∃ h : W.Nonsingular (x : ZMod p) (y : ZMod p), Q = WeierstrassCurve.Affine.Point.some h

/-! ### Helper lemmas -/

lemma beBytes_length (w v : Nat) : (beBytes w v).length = w := by
  induction w generalizing v with
  | zero => rfl
  | succ w ih => simp [beBytes, ih]

lemma bytes_from_int_length (x : Nat) : (bytes_from_int x).length = 32 :=
  beBytes_length 32 x

lemma bytes_from_point_length (P : Pt) : (bytes_from_point P).length = 32 :=
  beBytes_length 32 _

lemma PublicKey_decode_ok (b : Bytes) (hb : b.length = 33 ∨ b.length = 65) :
    ∃ Q, PublicKey_decode b = Except.ok Q := by
  unfold PublicKey_decode
  rcases hb with hb | hb
  · rw [if_pos hb]
    dsimp only
    split
    · split
      · exact ⟨none, rfl⟩
      · split
        · exact ⟨_, rfl⟩
        · exact ⟨none, rfl⟩
    · exact ⟨none, rfl⟩
  · rw [if_neg (by simp [hb]), if_pos hb]
    dsimp only
    split
    · split
      · exact ⟨_, rfl⟩
      · exact ⟨none, rfl⟩
    · exact ⟨none, rfl⟩

lemma powMod_correct : ∀ (f a k m : Nat), k < 2 ^ f → powMod f a k m = a ^ k % m := by
  intro f
  induction f with
  | zero =>
    intro a k m hk
    have hk0 : k = 0 := Nat.lt_one_iff.mp hk
    subst hk0
    simp [powMod]
  | succ f ih =>
    intro a k m hk
    by_cases h0 : k = 0
    · subst h0
      simp [powMod]
    · have hk2 : k / 2 < 2 ^ f := by
        have h2 : 2 ^ (f + 1) = 2 ^ f * 2 := by ring
        omega
      have hrec := ih (a * a % m) (k / 2) m hk2
      have key : (a * a % m) ^ (k / 2) % m = a ^ (2 * (k / 2)) % m := by
        rw [pow_mul, pow_two, ← Nat.pow_mod]
      by_cases h1 : k % 2 = 1
      · have hkk : 2 * (k / 2) + 1 = k := by omega
        simp only [powMod, if_neg h0, if_pos h1]
        rw [hrec, key, Nat.mod_mul_mod, ← pow_succ, hkk]
      · have hkk : 2 * (k / 2) = k := by omega
        simp only [powMod, if_neg h0, if_neg h1]
        rw [hrec, key, hkk]

lemma powMod_lt : ∀ (f a k m : Nat), 0 < m → powMod f a k m < m := by
  intro f
  induction f with
  | zero => intro a k m hm; exact Nat.mod_lt _ hm
  | succ f ih =>
    intro a k m hm
    by_cases h0 : k = 0
    · subst h0; simpa [powMod] using Nat.mod_lt 1 hm
    · by_cases h1 : k % 2 = 1
      · simp only [powMod, if_neg h0, if_pos h1]
        exact Nat.mod_lt _ hm
      · simp only [powMod, if_neg h0, if_neg h1]
        exact ih _ _ _ hm

/-- Lucas primality certificate checker: `fs` lists the prime factors of
`q - 1` with multiplicity, `a` is a primitive-root witness, and the modular
exponentiations are checked executably through `powMod`. -/
lemma lucas_cert (q a : Nat) (fs : List Nat)
    (hq : 2 ≤ q) (hq2 : q - 1 < 2 ^ 256)
    (hprod : fs.prod = q - 1)
    (hprimes : ∀ r ∈ fs, Nat.Prime r)
    (hpow1 : powMod 256 (a % q) (q - 1) q = 1)
    (hpows : ∀ r ∈ fs, powMod 256 (a % q) ((q - 1) / r) q ≠ 1) :
    Nat.Prime q := by
  haveI : NeZero q := ⟨by omega⟩
  haveI : Fact (1 < q) := ⟨by omega⟩
  have hcast : ∀ k : Nat, k < 2 ^ 256 →
      ((powMod 256 (a % q) k q : Nat) : ZMod q) = (a : ZMod q) ^ k := by
    intro k hk
    rw [powMod_correct _ _ _ _ hk, ZMod.natCast_mod, Nat.cast_pow, ZMod.natCast_mod]
  apply lucas_primality q (a : ZMod q)
  · rw [← hcast _ hq2, hpow1, Nat.cast_one]
  · intro r hr hdvd
    rw [← hprod] at hdvd
    obtain ⟨s, hsmem, hrs⟩ := (Nat.Prime.prime hr).dvd_prod_iff.mp hdvd
    have hreq : r = s := (Nat.prime_dvd_prime_iff_eq hr (hprimes s hsmem)).mp hrs
    subst hreq
    intro heq
    apply hpows r hsmem
    have hlt : (q - 1) / r ≤ q - 1 := Nat.div_le_self _ _
    have hlt2 : (q - 1) / r < 2 ^ 256 := lt_of_le_of_lt hlt hq2
    have hv := hcast _ hlt2
    rw [heq] at hv
    have hvlt : powMod 256 (a % q) ((q - 1) / r) q < q := powMod_lt _ _ _ _ (by omega)
    calc powMod 256 (a % q) ((q - 1) / r) q
        = ((powMod 256 (a % q) ((q - 1) / r) q : Nat) : ZMod q).val :=
          (ZMod.val_cast_of_lt hvlt).symm
      _ = (1 : ZMod q).val := by rw [hv]
      _ = 1 := ZMod.val_one q

/-! ### Primality of the secp256k1 constants (Lucas certificates) -/

section Certificates

set_option maxRecDepth 40000

/-- Pratt-style Lucas certificate: `13331831` is prime. -/
lemma prime_13331831 : Nat.Prime 13331831 :=
  lucas_cert 13331831 13 [2, 5, 971, 1373]
    (by norm_num) (by norm_num) (by decide)
    (by simp only [List.forall_mem_cons]
        exact ⟨by norm_num, by norm_num, by norm_num, by norm_num, List.forall_mem_nil _⟩)
    (by decide)
    (by simp only [List.forall_mem_cons]
        exact ⟨by decide, by decide, by decide, by decide, List.forall_mem_nil _⟩)

/-- Pratt-style Lucas certificate: `44706919` is prime. -/
lemma prime_44706919 : Nat.Prime 44706919 :=
  lucas_cert 44706919 6 [2, 3, 797, 9349]
    (by norm_num) (by norm_num) (by decide)
    (by simp only [List.forall_mem_cons]
        exact ⟨by norm_num, by norm_num, by norm_num, by norm_num, List.forall_mem_nil _⟩)
    (by decide)
    (by simp only [List.forall_mem_cons]
        exact ⟨by decide, by decide, by decide, by decide, List.forall_mem_nil _⟩)

/-- Pratt-style Lucas certificate: `107590001` is prime. -/
lemma prime_107590001 : Nat.Prime 107590001 :=
  lucas_cert 107590001 3 [2, 2, 2, 2, 5, 5, 5, 5, 7, 29, 53]
    (by norm_num) (by norm_num) (by decide)
    (by simp only [List.forall_mem_cons]
        exact ⟨by norm_num, by norm_num, by norm_num, by norm_num, by norm_num, by norm_num, by norm_num, by norm_num, by norm_num, by norm_num, by norm_num, List.forall_mem_nil _⟩)
    (by decide)
    (by simp only [List.forall_mem_cons]
        exact ⟨by decide, by decide, by decide, by decide, by decide, by decide, by decide, by decide, by decide, by decide, by decide, List.forall_mem_nil _⟩)

/-- Pratt-style Lucas certificate: `545358713` is prime. -/
lemma prime_545358713 : Nat.Prime 545358713 :=
  lucas_cert 545358713 5 [2, 2, 2, 41, 59, 28181]
    (by norm_num) (by norm_num) (by decide)
    (by simp only [List.forall_mem_cons]
        exact ⟨by norm_num, by norm_num, by norm_num, by norm_num, by norm_num, by norm_num, List.forall_mem_nil _⟩)
    (by decide)
    (by simp only [List.forall_mem_cons]
        exact ⟨by decide, by decide, by decide, by decide, by decide, by decide, List.forall_mem_nil _⟩)

/-- Pratt-style Lucas certificate: `297159362677` is prime. -/
lemma prime_297159362677 : Nat.Prime 297159362677 :=
  lucas_cert 297159362677 2 [2, 2, 3, 3, 11, 461, 1627771]
    (by norm_num) (by norm_num) (by decide)
    (by simp only [List.forall_mem_cons]
        exact ⟨by norm_num, by norm_num, by norm_num, by norm_num, by norm_num, by norm_num, by norm_num, List.forall_mem_nil _⟩)
    (by decide)
    (by simp only [List.forall_mem_cons]
        exact ⟨by decide, by decide, by decide, by decide, by decide, by decide, by decide, List.forall_mem_nil _⟩)

/-- Pratt-style Lucas certificate: `107361793816595537` is prime. -/
lemma prime_107361793816595537 : Nat.Prime 107361793816595537 :=
  lucas_cert 107361793816595537 3 [2, 2, 2, 2, 16699, 85831, 4681609]
    (by norm_num) (by norm_num) (by decide)
    (by simp only [List.forall_mem_cons]
        exact ⟨by norm_num, by norm_num, by norm_num, by norm_num, by norm_num, by norm_num, by norm_num, List.forall_mem_nil _⟩)
    (by decide)
    (by simp only [List.forall_mem_cons]
        exact ⟨by decide, by decide, by decide, by decide, by decide, by decide, by decide, List.forall_mem_nil _⟩)

/-- Pratt-style Lucas certificate: `173378833005251801` is prime. -/
lemma prime_173378833005251801 : Nat.Prime 173378833005251801 :=
  lucas_cert 173378833005251801 6 [2, 2, 2, 5, 5, 2621, 24809, 13331831]
    (by norm_num) (by norm_num) (by decide)
    (by simp only [List.forall_mem_cons]
        exact ⟨by norm_num, by norm_num, by norm_num, by norm_num, by norm_num, by norm_num, by norm_num, prime_13331831, List.forall_mem_nil _⟩)
    (by decide)
    (by simp only [List.forall_mem_cons]
        exact ⟨by decide, by decide, by decide, by decide, by decide, by decide, by decide, by decide, List.forall_mem_nil _⟩)

/-- Pratt-style Lucas certificate: `174723607534414371449` is prime. -/
lemma prime_174723607534414371449 : Nat.Prime 174723607534414371449 :=
  lucas_cert 174723607534414371449 3 [2, 2, 2, 17, 59, 4051, 120233, 44706919]
    (by norm_num) (by norm_num) (by decide)
    (by simp only [List.forall_mem_cons]
        exact ⟨by norm_num, by norm_num, by norm_num, by norm_num, by norm_num, by norm_num, by norm_num, prime_44706919, List.forall_mem_nil _⟩)
    (by decide)
    (by simp only [List.forall_mem_cons]
        exact ⟨by decide, by decide, by decide, by decide, by decide, by decide, by decide, by decide, List.forall_mem_nil _⟩)

/-- Pratt-style Lucas certificate: `22149492674086928081353` is prime. -/
lemma prime_22149492674086928081353 : Nat.Prime 22149492674086928081353 :=
  lucas_cert 22149492674086928081353 5 [2, 2, 2, 3, 5323, 173378833005251801]
    (by norm_num) (by norm_num) (by decide)
    (by simp only [List.forall_mem_cons]
        exact ⟨by norm_num, by norm_num, by norm_num, by norm_num, by norm_num, prime_173378833005251801, List.forall_mem_nil _⟩)
    (by decide)
    (by simp only [List.forall_mem_cons]
        exact ⟨by decide, by decide, by decide, by decide, by decide, by decide, List.forall_mem_nil _⟩)

/-- Pratt-style Lucas certificate: `132896956044521568488119` is prime. -/
lemma prime_132896956044521568488119 : Nat.Prime 132896956044521568488119 :=
  lucas_cert 132896956044521568488119 6 [2, 3, 22149492674086928081353]
    (by norm_num) (by norm_num) (by decide)
    (by simp only [List.forall_mem_cons]
        exact ⟨by norm_num, by norm_num, prime_22149492674086928081353, List.forall_mem_nil _⟩)
    (by decide)
    (by simp only [List.forall_mem_cons]
        exact ⟨by decide, by decide, by decide, List.forall_mem_nil _⟩)

/-- Pratt-style Lucas certificate: `29047611873442575647497758179` is prime. -/
lemma prime_29047611873442575647497758179 : Nat.Prime 29047611873442575647497758179 :=
  lucas_cert 29047611873442575647497758179 2 [2, 293, 305873, 545358713, 297159362677]
    (by norm_num) (by norm_num) (by decide)
    (by simp only [List.forall_mem_cons]
        exact ⟨by norm_num, by norm_num, by norm_num, prime_545358713, prime_297159362677, List.forall_mem_nil _⟩)
    (by decide)
    (by simp only [List.forall_mem_cons]
        exact ⟨by decide, by decide, by decide, by decide, by decide, List.forall_mem_nil _⟩)

/-- Pratt-style Lucas certificate: `341948486974166000522343609283189` is prime. -/
lemma prime_341948486974166000522343609283189 : Nat.Prime 341948486974166000522343609283189 :=
  lucas_cert 341948486974166000522343609283189 2 [2, 2, 3, 3, 3, 109, 29047611873442575647497758179]
    (by norm_num) (by norm_num) (by decide)
    (by simp only [List.forall_mem_cons]
        exact ⟨by norm_num, by norm_num, by norm_num, by norm_num, by norm_num, by norm_num, prime_29047611873442575647497758179, List.forall_mem_nil _⟩)
    (by decide)
    (by simp only [List.forall_mem_cons]
        exact ⟨by decide, by decide, by decide, by decide, by decide, by decide, by decide, List.forall_mem_nil _⟩)

/-- Pratt-style Lucas certificate: `255515944373312847190720520512484175977` is prime. -/
lemma prime_255515944373312847190720520512484175977 : Nat.Prime 255515944373312847190720520512484175977 :=
  lucas_cert 255515944373312847190720520512484175977 3 [2, 2, 2, 7, 7, 11, 1627, 2657, 4423, 41201, 96557, 7240687, 107590001]
    (by norm_num) (by norm_num) (by decide)
    (by simp only [List.forall_mem_cons]
        exact ⟨by norm_num, by norm_num, by norm_num, by norm_num, by norm_num, by norm_num, by norm_num, by norm_num, by norm_num, by norm_num, by norm_num, by norm_num, prime_107590001, List.forall_mem_nil _⟩)
    (by decide)
    (by simp only [List.forall_mem_cons]
        exact ⟨by decide, by decide, by decide, by decide, by decide, by decide, by decide, by decide, by decide, by decide, by decide, by decide, by decide, List.forall_mem_nil _⟩)

/-- Pratt-style Lucas certificate: `205115282021455665897114700593932402728804164701536103180137503955397371` is prime. -/
lemma prime_205115282021455665897114700593932402728804164701536103180137503955397371 : Nat.Prime 205115282021455665897114700593932402728804164701536103180137503955397371 :=
  lucas_cert 205115282021455665897114700593932402728804164701536103180137503955397371 10 [2, 3, 5, 29, 29, 31, 7723, 132896956044521568488119, 255515944373312847190720520512484175977]
    (by norm_num) (by norm_num) (by decide)
    (by simp only [List.forall_mem_cons]
        exact ⟨by norm_num, by norm_num, by norm_num, by norm_num, by norm_num, by norm_num, by norm_num, prime_132896956044521568488119, prime_255515944373312847190720520512484175977, List.forall_mem_nil _⟩)
    (by decide)
    (by simp only [List.forall_mem_cons]
        exact ⟨by decide, by decide, by decide, by decide, by decide, by decide, by decide, by decide, by decide, List.forall_mem_nil _⟩)

/-- Pratt-style Lucas certificate: `115792089237316195423570985008687907852837564279074904382605163141518161494337` is prime. -/
lemma prime_secp_n : Nat.Prime 115792089237316195423570985008687907852837564279074904382605163141518161494337 :=
  lucas_cert 115792089237316195423570985008687907852837564279074904382605163141518161494337 7 [2, 2, 2, 2, 2, 2, 3, 149, 631, 107361793816595537, 174723607534414371449, 341948486974166000522343609283189]
    (by norm_num) (by norm_num) (by decide)
    (by simp only [List.forall_mem_cons]
        exact ⟨by norm_num, by norm_num, by norm_num, by norm_num, by norm_num, by norm_num, by norm_num, by norm_num, by norm_num, prime_107361793816595537, prime_174723607534414371449, prime_341948486974166000522343609283189, List.forall_mem_nil _⟩)
    (by decide)
    (by simp only [List.forall_mem_cons]
        exact ⟨by decide, by decide, by decide, by decide, by decide, by decide, by decide, by decide, by decide, by decide, by decide, by decide, List.forall_mem_nil _⟩)

/-- Pratt-style Lucas certificate: `115792089237316195423570985008687907853269984665640564039457584007908834671663` is prime. -/
lemma prime_secp_p : Nat.Prime 115792089237316195423570985008687907853269984665640564039457584007908834671663 :=
  lucas_cert 115792089237316195423570985008687907853269984665640564039457584007908834671663 3 [2, 3, 7, 13441, 205115282021455665897114700593932402728804164701536103180137503955397371]
    (by norm_num) (by norm_num) (by decide)
    (by simp only [List.forall_mem_cons]
        exact ⟨by norm_num, by norm_num, by norm_num, by norm_num, prime_205115282021455665897114700593932402728804164701536103180137503955397371, List.forall_mem_nil _⟩)
    (by decide)
    (by simp only [List.forall_mem_cons]
        exact ⟨by decide, by decide, by decide, by decide, by decide, List.forall_mem_nil _⟩)

end Certificates

/-! ### Refinement of the executable curve to the abstract curve -/


lemma p_pos : 0 < p := by norm_num [p]

lemma cast_mod_p (a : Nat) : ((a % p : Nat) : ZMod p) = (a : ZMod p) := ZMod.natCast_mod a p

lemma cast_addm (a b : Nat) : ((addm a b : Nat) : ZMod p) = (a : ZMod p) + b := by
  unfold addm
  push_cast [ZMod.natCast_mod]
  ring

lemma cast_mulm (a b : Nat) : ((mulm a b : Nat) : ZMod p) = (a : ZMod p) * b := by
  unfold mulm
  push_cast [ZMod.natCast_mod]
  ring

lemma cast_subm (a b : Nat) : ((subm a b : Nat) : ZMod p) = (a : ZMod p) - b := by
  unfold subm
  have hle : b % p ≤ p := le_of_lt (Nat.mod_lt _ p_pos)
  rw [ZMod.natCast_mod, Nat.cast_add, Nat.cast_sub hle, ZMod.natCast_self, ZMod.natCast_mod]
  ring

lemma subm_lt (a b : Nat) : subm a b < p := Nat.mod_lt _ p_pos

lemma mulm_lt (a b : Nat) : mulm a b < p := Nat.mod_lt _ p_pos

lemma cast_eq_of_lt {a b : Nat} (ha : a < p) (hb : b < p)
    (h : (a : ZMod p) = (b : ZMod p)) : a = b := by
  have := congrArg ZMod.val h
  rwa [ZMod.val_cast_of_lt ha, ZMod.val_cast_of_lt hb] at this

set_option maxRecDepth 100000 in
lemma cast_inv_mod [Fact (Nat.Prime p)] (a : Nat) :
    ((inv_mod a : Nat) : ZMod p) = (a : ZMod p)⁻¹ := by
  unfold inv_mod
  have h2 : p - 2 < 2 ^ 256 := by norm_num [p]
  rw [powMod_correct _ _ _ _ h2, ZMod.natCast_mod, Nat.cast_pow, ZMod.natCast_mod]
  by_cases ha : (a : ZMod p) = 0
  · rw [ha, inv_zero]
    exact zero_pow (by norm_num [p])
  · have hfl : (a : ZMod p) ^ (p - 1) = 1 := ZMod.pow_card_sub_one_eq_one ha
    have hsplit : (a : ZMod p) * (a : ZMod p) ^ (p - 2) = 1 := by
      rw [← pow_succ']
      have : p - 2 + 1 = p - 1 := by norm_num [p]
      rw [this, hfl]
    calc (a : ZMod p) ^ (p - 2) = ((a : ZMod p)⁻¹ * a) * (a : ZMod p) ^ (p - 2) := by
          rw [inv_mul_cancel₀ ha, one_mul]
      _ = (a : ZMod p)⁻¹ * ((a : ZMod p) * (a : ZMod p) ^ (p - 2)) := by ring
      _ = (a : ZMod p)⁻¹ := by rw [hsplit, mul_one]

lemma W_a₁ : W.a₁ = 0 := rfl

lemma W_a₂ : W.a₂ = 0 := rfl

lemma W_a₃ : W.a₃ = 0 := rfl

lemma W_a₄ : W.a₄ = 0 := rfl

lemma W_a₆ : W.a₆ = 7 := rfl

lemma W_negY (x y : ZMod p) : W.negY x y = -y := by
  simp [WeierstrassCurve.Affine.negY, W_a₁, W_a₃]

lemma W_equation_iff (x y : ZMod p) : W.Equation x y ↔ y ^ 2 = x ^ 3 + 7 := by
  rw [WeierstrassCurve.Affine.equation_iff, W_a₁, W_a₂, W_a₃, W_a₄, W_a₆]
  constructor <;> intro h <;> linear_combination h

lemma W_Δ : W.Δ = -21168 := by
  show WeierstrassCurve.Δ W = -21168
  unfold WeierstrassCurve.Δ WeierstrassCurve.b₂ WeierstrassCurve.b₄ WeierstrassCurve.b₆
    WeierstrassCurve.b₈
  rw [W_a₁, W_a₂, W_a₃, W_a₄, W_a₆]
  ring

set_option maxRecDepth 100000 in
lemma W_Δ_ne_zero [Fact (Nat.Prime p)] : W.Δ ≠ 0 := by
  rw [W_Δ]
  intro hcon
  have h21 : ((21168 : Nat) : ZMod p) = 0 := by
    push_cast
    linear_combination -hcon
  rw [ZMod.natCast_zmod_eq_zero_iff_dvd] at h21
  have hle := Nat.le_of_dvd (by norm_num) h21
  have hlt : (21168 : Nat) < p := by norm_num [p]
  omega

lemma equation_of_exec {x y : Nat} (hcurve : y * y % p = (x * x % p * x + 7) % p) :
    W.Equation (x : ZMod p) (y : ZMod p) := by
  rw [W_equation_iff]
  have := congrArg (fun t : Nat => (t : ZMod p)) hcurve
  simp only [ZMod.natCast_mod] at this
  push_cast [ZMod.natCast_mod] at this
  linear_combination this

lemma exec_of_equation {x y : Nat}
    (heq : W.Equation (x : ZMod p) (y : ZMod p)) :
    y * y % p = (x * x % p * x + 7) % p := by
  rw [W_equation_iff] at heq
  apply cast_eq_of_lt (Nat.mod_lt _ p_pos) (Nat.mod_lt _ p_pos)
  push_cast [ZMod.natCast_mod]
  linear_combination heq

lemma nonsingular_of_exec [Fact (Nat.Prime p)] {x y : Nat}
    (hcurve : y * y % p = (x * x % p * x + 7) % p) :
    W.Nonsingular (x : ZMod p) (y : ZMod p) :=
  W.nonsingular_of_Δ_ne_zero (equation_of_exec hcurve) W_Δ_ne_zero



lemma cast_opp_iff (y₁ y₂ : Nat) :
    (y₁ + y₂) % p = 0 ↔ (y₁ : ZMod p) = -(y₂ : ZMod p) := by
  rw [← Nat.dvd_iff_mod_eq_zero, ← ZMod.natCast_zmod_eq_zero_iff_dvd]
  push_cast
  rw [add_eq_zero_iff_eq_neg]

lemma cast_ne_of_ne {a b : Nat} (ha : a < p) (hb : b < p) (h : a ≠ b) :
    (a : ZMod p) ≠ (b : ZMod p) :=
  fun hc => h (cast_eq_of_lt ha hb hc)

set_option maxRecDepth 4000 in
lemma rel_add_some [Fact (Nat.Prime p)] {x₁ y₁ x₂ y₂ lam : Nat}
    (hns₁ : W.Nonsingular (x₁ : ZMod p) (y₁ : ZMod p))
    (hns₂ : W.Nonsingular (x₂ : ZMod p) (y₂ : ZMod p))
    (hlam : (lam : ZMod p) = W.slope (x₁ : ZMod p) (x₂ : ZMod p) (y₁ : ZMod p) (y₂ : ZMod p))
    (hxy : (x₁ : ZMod p) = (x₂ : ZMod p) → (y₁ : ZMod p) ≠ W.negY (x₂ : ZMod p) (y₂ : ZMod p)) :
    Rel (some (subm (subm (mulm lam lam) x₁) x₂,
          subm (mulm lam (subm x₁ (subm (subm (mulm lam lam) x₁) x₂))) y₁))
        (WeierstrassCurve.Affine.Point.some hns₁ + WeierstrassCurve.Affine.Point.some hns₂) := by
  rw [WeierstrassCurve.Affine.Point.add_of_imp hxy]
  refine ⟨subm_lt _ _, subm_lt _ _, ?_⟩
  have hX : ((subm (subm (mulm lam lam) x₁) x₂ : Nat) : ZMod p) =
      W.addX (x₁ : ZMod p) (x₂ : ZMod p) (W.slope (x₁ : ZMod p) (x₂ : ZMod p) (y₁ : ZMod p) (y₂ : ZMod p)) := by
    rw [cast_subm, cast_subm, cast_mulm, hlam]
    simp only [WeierstrassCurve.Affine.addX, W_a₁, W_a₂]
    ring
  have hY : ((subm (mulm lam (subm x₁ (subm (subm (mulm lam lam) x₁) x₂))) y₁ : Nat) : ZMod p) =
      W.addY (x₁ : ZMod p) (x₂ : ZMod p) (y₁ : ZMod p) (W.slope (x₁ : ZMod p) (x₂ : ZMod p) (y₁ : ZMod p) (y₂ : ZMod p)) := by
    rw [cast_subm, cast_mulm, cast_subm, hX, hlam]
    simp only [WeierstrassCurve.Affine.addY, WeierstrassCurve.Affine.negAddY,
      WeierstrassCurve.Affine.negY, W_a₁, W_a₃]
    ring
  rw [hX, hY]
  exact ⟨_, rfl⟩

set_option maxRecDepth 4000 in
lemma rel_add [Fact (Nat.Prime p)] {P₁ P₂ : Pt} {Q₁ Q₂ : W.Point}
    (h₁ : Rel P₁ Q₁) (h₂ : Rel P₂ Q₂) : Rel (point_add P₁ P₂) (Q₁ + Q₂) := by
  cases P₁ with
  | none =>
    have hQ : Q₁ = 0 := h₁
    subst hQ
    rw [zero_add]
    cases P₂ with
    | none => exact h₂
    | some q => exact h₂
  | some xy₁ =>
    obtain ⟨x₁, y₁⟩ := xy₁
    cases P₂ with
    | none =>
      have hQ : Q₂ = 0 := h₂
      subst hQ
      rw [add_zero]
      exact h₁
    | some xy₂ =>
      obtain ⟨x₂, y₂⟩ := xy₂
      obtain ⟨hx₁, hy₁, hns₁, hQ₁⟩ := h₁
      obtain ⟨hx₂, hy₂, hns₂, hQ₂⟩ := h₂
      subst hQ₁
      subst hQ₂
      by_cases hxeq : x₁ = x₂
      · by_cases hyopp : (y₁ + y₂) % p = 0
        · have hexec : point_add (some (x₁, y₁)) (some (x₂, y₂)) = none := by
            simp [point_add, hxeq, hyopp]
          rw [hexec]
          have hYeq : (y₁ : ZMod p) = W.negY (x₂ : ZMod p) (y₂ : ZMod p) := by
            rw [W_negY]
            exact (cast_opp_iff y₁ y₂).mp hyopp
          show _ = (0 : W.Point)
          exact WeierstrassCurve.Affine.Point.add_of_Y_eq (congrArg _ hxeq) hYeq
        · have hexec : point_add (some (x₁, y₁)) (some (x₂, y₂)) =
              some (subm (subm (mulm (mulm (mulm 3 (mulm x₁ x₁)) (inv_mod (mulm 2 y₁)))
                    (mulm (mulm 3 (mulm x₁ x₁)) (inv_mod (mulm 2 y₁)))) x₁) x₂,
                subm (mulm (mulm (mulm 3 (mulm x₁ x₁)) (inv_mod (mulm 2 y₁)))
                  (subm x₁ (subm (subm (mulm (mulm (mulm 3 (mulm x₁ x₁)) (inv_mod (mulm 2 y₁)))
                    (mulm (mulm 3 (mulm x₁ x₁)) (inv_mod (mulm 2 y₁)))) x₁) x₂))) y₁) := by
            simp [point_add, hxeq, hyopp]
          rw [hexec]
          have hxc : (x₁ : ZMod p) = (x₂ : ZMod p) := congrArg _ hxeq
          have hyne : (y₁ : ZMod p) ≠ W.negY (x₂ : ZMod p) (y₂ : ZMod p) := by
            rw [W_negY]
            exact fun hc => hyopp ((cast_opp_iff y₁ y₂).mpr hc)
          have hlam : ((mulm (mulm 3 (mulm x₁ x₁)) (inv_mod (mulm 2 y₁)) : Nat) : ZMod p) =
              W.slope (x₁ : ZMod p) (x₂ : ZMod p) (y₁ : ZMod p) (y₂ : ZMod p) := by
            rw [WeierstrassCurve.Affine.slope_of_Y_ne hxc hyne]
            rw [cast_mulm, cast_mulm, cast_mulm, cast_inv_mod, cast_mulm]
            rw [W_negY, W_a₁, W_a₂, W_a₄]
            rw [div_eq_mul_inv]
            push_cast
            ring_nf
          exact rel_add_some hns₁ hns₂ hlam (fun _ => hyne)
      · have hexec : point_add (some (x₁, y₁)) (some (x₂, y₂)) =
            some (subm (subm (mulm (mulm (subm y₁ y₂) (inv_mod (subm x₁ x₂)))
                  (mulm (subm y₁ y₂) (inv_mod (subm x₁ x₂)))) x₁) x₂,
              subm (mulm (mulm (subm y₁ y₂) (inv_mod (subm x₁ x₂)))
                (subm x₁ (subm (subm (mulm (mulm (subm y₁ y₂) (inv_mod (subm x₁ x₂)))
                  (mulm (subm y₁ y₂) (inv_mod (subm x₁ x₂)))) x₁) x₂))) y₁) := by
          simp [point_add, hxeq]
        rw [hexec]
        have hxne : (x₁ : ZMod p) ≠ (x₂ : ZMod p) := cast_ne_of_ne hx₁ hx₂ hxeq
        have hlam : ((mulm (subm y₁ y₂) (inv_mod (subm x₁ x₂)) : Nat) : ZMod p) =
            W.slope (x₁ : ZMod p) (x₂ : ZMod p) (y₁ : ZMod p) (y₂ : ZMod p) := by
          rw [WeierstrassCurve.Affine.slope_of_X_ne hxne]
          rw [cast_mulm, cast_inv_mod, cast_subm, cast_subm]
          rw [div_eq_mul_inv]
        exact rel_add_some hns₁ hns₂ hlam (fun hc => absurd hc hxne)



lemma rel_mul [Fact (Nat.Prime p)] :
    ∀ (f : Nat) {P : Pt} {Q : W.Point} (k : Nat), k < 2 ^ f → Rel P Q →
      Rel (point_mul f P k) (k • Q) := by
  intro f
  induction f with
  | zero =>
    intro P Q k hk hPQ
    have hk0 : k = 0 := Nat.lt_one_iff.mp hk
    subst hk0
    rw [zero_nsmul]
    rfl
  | succ f ih =>
    intro P Q k hk hPQ
    by_cases h0 : k = 0
    · subst h0
      rw [zero_nsmul]
      rfl
    · have hk2 : k / 2 < 2 ^ f := by
        have h2 : 2 ^ (f + 1) = 2 ^ f * 2 := by ring
        omega
      have hrec : Rel (point_mul f (point_add P P) (k / 2)) ((k / 2) • (Q + Q)) :=
        ih (k / 2) hk2 (rel_add hPQ hPQ)
      have habs : (k / 2) • (Q + Q) = (2 * (k / 2)) • Q := by
        rw [← two_nsmul, ← mul_nsmul]
      rw [habs] at hrec
      by_cases h1 : k % 2 = 1
      · have hkk : 2 * (k / 2) + 1 = k := by omega
        simp only [point_mul, if_neg h0, if_pos h1]
        have hfin := rel_add hrec hPQ
        rwa [← succ_nsmul, hkk] at hfin
      · have hkk : 2 * (k / 2) = k := by omega
        simp only [point_mul, if_neg h0, if_neg h1]
        rwa [hkk] at hrec

set_option maxRecDepth 2000000 in
/-- The generator has `n`-torsion, executably: `n · G` is the point at
infinity.  (Shared heavy kernel computation.) -/
lemma mulG_n_none : point_mul 256 G n = none := by decide

set_option maxRecDepth 100000 in
lemma G_nonsingular [Fact (Nat.Prime p)] :
    W.Nonsingular (Gx : ZMod p) (Gy : ZMod p) :=
  nonsingular_of_exec (by decide)

set_option maxRecDepth 100000 in
lemma rel_G [Fact (Nat.Prime p)] :
    Rel G (WeierstrassCurve.Affine.Point.some G_nonsingular) :=
  ⟨by decide, by decide, G_nonsingular, rfl⟩

set_option maxRecDepth 40000 in
lemma n_lt_pow : n < 2 ^ 256 := by norm_num [n]

set_option maxRecDepth 40000 in
lemma n_two_le : 2 ≤ n := by norm_num [n]

lemma rel_of_eq {P P' : Pt} {Q : W.Point} (h : P = P') (hrel : Rel P Q) : Rel P' Q :=
  h ▸ hrel

lemma rel_none_zero {Q : W.Point} (h : Rel none Q) : Q = 0 := h

lemma rel_mul_eq_none [Fact (Nat.Prime p)] {Qg : W.Point} (hG : Rel G Qg) (k : Nat)
    (hk : k < 2 ^ 256) (hnone : point_mul 256 G k = none) : k • Qg = 0 :=
  rel_none_zero (rel_of_eq hnone (rel_mul 256 k hk hG))

lemma nsmul_G_zero [Fact (Nat.Prime p)] {Qg : W.Point} (hG : Rel G Qg) : n • Qg = 0 :=
  rel_mul_eq_none hG n n_lt_pow mulG_n_none

lemma G_ne_zero [Fact (Nat.Prime p)] {Qg : W.Point} (hG : Rel G Qg) : Qg ≠ 0 := by
  obtain ⟨_, _, h, rfl⟩ := hG
  exact WeierstrassCurve.Affine.Point.some_ne_zero h

lemma addOrderOf_G [Fact (Nat.Prime p)] {Qg : W.Point} (hG : Rel G Qg) :
    addOrderOf Qg = n := by
  have hdvd : addOrderOf Qg ∣ n := addOrderOf_dvd_of_nsmul_eq_zero (nsmul_G_zero hG)
  rcases (prime_secp_n.eq_one_or_self_of_dvd _ hdvd) with h1 | hn
  · exact absurd (AddMonoid.addOrderOf_eq_one_iff.mp h1) (G_ne_zero hG)
  · exact hn

lemma smul_G_zero_iff [Fact (Nat.Prime p)] {Qg : W.Point} (hG : Rel G Qg) (k : Nat) :
    k • Qg = 0 ↔ n ∣ k := by
  rw [← addOrderOf_dvd_iff_nsmul_eq_zero, addOrderOf_G hG]

lemma smul_mod_n [Fact (Nat.Prime p)] {Qg : W.Point} (hG : Rel G Qg) (a : Nat) :
    (a % n) • Qg = a • Qg := by
  conv_rhs => rw [← Nat.div_add_mod a n]
  rw [add_nsmul, mul_nsmul, nsmul_G_zero hG, nsmul_zero, zero_add]

lemma mulG_rel [Fact (Nat.Prime p)] {Qg : W.Point} (hG : Rel G Qg) (k : Nat)
    (hk : k < 2 ^ 256) : Rel (mulG k) (k • Qg) :=
  rel_mul 256 k hk hG

lemma mulG_some [Fact (Nat.Prime p)] {Qg : W.Point} (hG : Rel G Qg) {k : Nat}
    (h1 : 1 ≤ k) (h2 : k ≤ n - 1) :
    ∃ x y, mulG k = some (x, y) ∧ x < p ∧ y < p ∧
      ∃ h : W.Nonsingular (x : ZMod p) (y : ZMod p),
        k • Qg = WeierstrassCurve.Affine.Point.some h := by
  have hn2 := n_two_le
  have hrel := mulG_rel hG k (lt_of_le_of_lt h2 (lt_of_le_of_lt (Nat.sub_le n 1) n_lt_pow))
  cases hmul : mulG k with
  | none =>
    rw [hmul] at hrel
    have hz : k • Qg = 0 := hrel
    rw [smul_G_zero_iff hG] at hz
    have := Nat.le_of_dvd (by omega) hz
    omega
  | some xy =>
    obtain ⟨x, y⟩ := xy
    rw [hmul] at hrel
    obtain ⟨hx, hy, hns, hQ⟩ := hrel
    exact ⟨x, y, rfl, hx, hy, hns, hQ⟩

lemma mulG_sub_neg [Fact (Nat.Prime p)] {Qg : W.Point} (hG : Rel G Qg) {k x y : Nat}
    (h1 : 1 ≤ k) (h2 : k ≤ n - 1) (hmul : mulG k = some (x, y)) :
    mulG (n - k) = some (x, if y = 0 then 0 else p - y) := by
  have hn2 := n_two_le
  obtain ⟨x', y', hmul', hx', hy', hns', hQ'⟩ := mulG_some hG h1 h2
  rw [hmul] at hmul'
  injection hmul' with hpair
  injection hpair with hxx hyy
  subst hxx
  subst hyy
  have hsum : (n - k) • Qg + k • Qg = 0 := by
    rw [← add_nsmul, Nat.sub_add_cancel (by omega)]
    exact nsmul_G_zero hG
  have hneg : (n - k) • Qg = -(k • Qg) := eq_neg_of_add_eq_zero_left hsum
  rw [hQ', WeierstrassCurve.Affine.Point.neg_some] at hneg
  obtain ⟨a, b, hmul2, ha, hb, hns2, hQ2⟩ := mulG_some hG (show 1 ≤ n - k by omega) (show n - k ≤ n - 1 by omega)
  rw [hmul2]
  rw [hneg, WeierstrassCurve.Affine.Point.some.injEq] at hQ2
  have hax : a = x := cast_eq_of_lt ha hx' (by exact_mod_cast hQ2.1.symm)
  subst hax
  have hybc : (b : ZMod p) = -(y : ZMod p) := by
    rw [← hQ2.2, W_negY]
  by_cases hy0 : y = 0
  · subst hy0
    rw [if_pos rfl]
    have hb0 : b = 0 := cast_eq_of_lt hb p_pos (by rw [hybc]; norm_num)
    rw [hb0]
  · rw [if_neg hy0]
    have hcast : ((p - y : Nat) : ZMod p) = -(y : ZMod p) := by
      rw [Nat.cast_sub (le_of_lt hy'), ZMod.natCast_self, zero_sub]
    have hbpy : b = p - y := cast_eq_of_lt hb (by omega) (hybc.trans hcast.symm)
    rw [hbpy]


/-! ### Claims about input validation and error classes -/

/-- C3: `verify` raises an invalid-input error exactly on wrong-length
buffers; on well-lengthed input it always returns a plain boolean, and in
particular returns `false` (never raises) when `liftX` fails. -/
theorem claim_C3 (H : Hash) (msg pubkey sig : Bytes)
    (hm : msg.length = 32) (hp : pubkey.length = 32) (hs : sig.length = 64) :
    (∃ b : Bool, verifyH H msg pubkey sig = Except.ok b)
    ∧ (lift_x pubkey = none → verifyH H msg pubkey sig = Except.ok false)
    ∧ ∀ (m2 p2 s2 : Bytes), ¬(m2.length = 32 ∧ p2.length = 32 ∧ s2.length = 64) →
        verifyH H m2 p2 s2 = Except.error SchnorrError.invalidInput := by
  refine ⟨?_, ?_, ?_⟩
  · unfold verifyH
    rw [if_neg (by simp [hm]), if_neg (by simp [hp]), if_neg (by simp [hs])]
    cases hL : lift_x pubkey with
    | none => exact ⟨false, rfl⟩
    | some P =>
      dsimp only
      split
      · exact ⟨false, rfl⟩
      · split
        · exact ⟨false, rfl⟩
        · split
          · exact ⟨true, rfl⟩
          · exact ⟨false, rfl⟩
  · intro hL
    unfold verifyH
    rw [if_neg (by simp [hm]), if_neg (by simp [hp]), if_neg (by simp [hs]), hL]
  · intro m2 p2 s2 hbad
    unfold verifyH
    by_cases h1 : m2.length = 32
    · by_cases h2 : p2.length = 32
      · have h3 : s2.length ≠ 64 := by tauto
        rw [if_neg (by simp [h1]), if_neg (by simp [h2]), if_pos (by simp [h3])]
      · rw [if_neg (by simp [h1]), if_pos (by simp [h2])]
    · rw [if_pos (by simp [h1])]

/-- C4: on well-lengthed input, decoded signature components with `r ≥ p` or
`s ≥ n` make both verifiers return a plain `false` (the guard sits in front of
the curve computation of `R` in both). -/
theorem claim_C4 (H : Hash) (msg pubkey sig : Bytes)
    (hm : msg.length = 32) (hs : sig.length = 64)
    (hrs : p ≤ int_from_bytes (sig.take 32) ∨ n ≤ int_from_bytes (sig.drop 32)) :
    (pubkey.length = 32 → verifyH H msg pubkey sig = Except.ok false)
    ∧ ∀ pk2 : Bytes, pk2.length = 33 ∨ pk2.length = 65 →
        bcrypto410_verifyH H msg pk2 sig = Except.ok false := by
  constructor
  · intro hp
    unfold verifyH
    rw [if_neg (by simp [hm]), if_neg (by simp [hp]), if_neg (by simp [hs])]
    cases hL : lift_x pubkey with
    | none => rfl
    | some P => exact if_pos hrs
  · intro pk2 hp
    obtain ⟨Q, hQ⟩ := PublicKey_decode_ok pk2 hp
    unfold bcrypto410_verifyH
    rw [if_neg (by simp [hm]), if_neg (by simp [hs]), hQ]
    cases Q with
    | none => rfl
    | some P => exact if_pos hrs

/-- C5: after the range checks, both verifiers return exactly the boolean
discrimination of `R = G·s + P·(n−e)`: `false` when `R` is infinity, when its
y-coordinate fails the parity (resp. quadratic-residue) condition, or when its
x-coordinate differs from `r`; `true` otherwise. -/
theorem claim_C5 (H : Hash) (msg pubkey sig : Bytes)
    (hm : msg.length = 32) (hp : pubkey.length = 32) (hs : sig.length = 64)
    (P : Nat × Nat) (hL : lift_x pubkey = some P)
    (hr : int_from_bytes (sig.take 32) < p) (hsn : int_from_bytes (sig.drop 32) < n) :
    (verifyH H msg pubkey sig =
      Except.ok
        (match point_add (mulG (int_from_bytes (sig.drop 32)))
            (point_mul 256 (some P)
              (n - int_from_bytes (tagged_hashH H tagChallenge (sig.take 32 ++ pubkey ++ msg)) % n)) with
         | none => false
         | some (Rx, Ry) => decide (Rx = int_from_bytes (sig.take 32)) && decide (Ry % 2 = 0)))
    ∧ ∀ (pk2 : Bytes) (P2 : Nat × Nat), PublicKey_decode pk2 = Except.ok (some P2) →
        bcrypto410_verifyH H msg pk2 sig =
          Except.ok
            (match point_add (mulG (int_from_bytes (sig.drop 32)))
                (point_mul 256 (some P2)
                  (n - int_from_bytes (H (sig.take 32 ++ pk2 ++ msg)) % n)) with
             | none => false
             | some (Rx, Ry) => decide (Rx = int_from_bytes (sig.take 32)) && is_quad Ry) := by
  constructor
  · unfold verifyH
    rw [if_neg (by simp [hm]), if_neg (by simp [hp]), if_neg (by simp [hs]), hL]
    dsimp only
    rw [if_neg (by push_neg; exact ⟨hr, hsn⟩)]
    cases hR : point_add (mulG (int_from_bytes (sig.drop 32)))
        (point_mul 256 (some P)
          (n - int_from_bytes (tagged_hashH H tagChallenge (sig.take 32 ++ pubkey ++ msg)) % n)) with
    | none => rfl
    | some R =>
      obtain ⟨Rx, Ry⟩ := R
      by_cases h1 : Ry % 2 = 0 <;> by_cases h2 : Rx = int_from_bytes (sig.take 32) <;>
        simp [h1, h2]
  · intro pk2 P2 hQ
    unfold bcrypto410_verifyH
    rw [if_neg (by simp [hm]), if_neg (by simp [hs]), hQ]
    dsimp only
    rw [if_neg (by push_neg; exact ⟨hr, hsn⟩)]
    cases hR : point_add (mulG (int_from_bytes (sig.drop 32)))
        (point_mul 256 (some P2)
          (n - int_from_bytes (H (sig.take 32 ++ pk2 ++ msg)) % n)) with
    | none => rfl
    | some R =>
      obtain ⟨Rx, Ry⟩ := R
      by_cases h1 : is_quad Ry <;> by_cases h2 : Rx = int_from_bytes (sig.take 32) <;>
        simp [h1, h2]

/-- C8: in both signing variants a zero nonce scalar aborts the call with the
internal-failure kind, which is distinct from the invalid-input kind; the
signer never re-derives a nonce (its output is a pure function of the stated
inputs, cf. C9). -/
theorem claim_C8 (H : Hash) (rand : Nat) (msg skB : Bytes) (aux : Option Bytes)
    (hm : msg.length = 32)
    (hsk : 1 ≤ int_from_bytes skB ∧ int_from_bytes skB ≤ n - 1) :
    (sign_nonce H rand msg skB aux = 0 →
      signH H rand msg skB aux = Except.error SchnorrError.internalFailure)
    ∧ (bcrypto410_nonce H msg skB = 0 →
      bcrypto410_signH H msg skB = Except.error SchnorrError.internalFailure)
    ∧ SchnorrError.internalFailure ≠ SchnorrError.invalidInput := by
  refine ⟨?_, ?_, by simp⟩
  · intro hk
    unfold signH
    rw [if_neg (by simp [hm]), if_neg (not_not_intro hsk), if_pos hk]
  · intro hk
    unfold bcrypto410_signH
    rw [if_neg (by simp [hm]), if_neg (not_not_intro hsk), if_pos hk]

/-- C9: with auxiliary randomness supplied, the BIP-340 signer is a
deterministic function of (message, secret key, auxiliary randomness): the
entropy source value is never consulted.  The legacy signer takes no entropy
at all and is deterministic in (message, secret key). -/
theorem claim_C9 (H : Hash) (rand1 rand2 : Nat) (msg skB a : Bytes) :
    signH H rand1 msg skB (some a) = signH H rand2 msg skB (some a)
    ∧ bcrypto410_signH H msg skB = bcrypto410_signH H msg skB := by
  constructor
  · unfold signH sign_nonce
    simp only [Option.getD_some]
  · rfl

/-- C10: `sign` never length-checks a supplied auxiliary-randomness buffer:
with a valid message and secret key it never raises invalid-input for any aux
buffer, and every produced signature is 64 bytes. -/
theorem claim_C10 (H : Hash) (rand : Nat) (msg skB a : Bytes)
    (hm : msg.length = 32)
    (hsk : 1 ≤ int_from_bytes skB ∧ int_from_bytes skB ≤ n - 1) :
    signH H rand msg skB (some a) ≠ Except.error SchnorrError.invalidInput
    ∧ ∀ bs, signH H rand msg skB (some a) = Except.ok bs → bs.length = 64 := by
  unfold signH
  rw [if_neg (by simp [hm]), if_neg (not_not_intro hsk)]
  dsimp only
  split
  · exact ⟨by simp, fun bs h => by simp at h⟩
  · refine ⟨by simp, fun bs h => ?_⟩
    rw [Except.ok.injEq] at h
    subst h
    simp [bytes_from_point_length, bytes_from_int_length]

set_option maxRecDepth 1000000 in
/-- C6 counterexample: a wrong-length (1-byte) secret-key buffer does not make
`sign` raise: the call succeeds, because secret keys are only range-checked,
never length-checked. -/
theorem claim_C6_counterexample :
    ([1] : Bytes).length ≠ 32 ∧
    ∃ bs, sign 0 msg0 [1] (some aux0) = Except.ok bs := by
  refine ⟨by simp, ?_⟩
  unfold sign signH
  rw [if_neg (by decide), if_neg (by decide), if_neg (by decide)]
  exact ⟨_, rfl⟩

/-- C6 (amended): wrong-length message and signature buffers raise
invalid-input in all four operations, `verify` also length-checks its public
key, and `legacyVerify` raises invalid-input on a public key that is neither
33 nor 65 bytes (through the external decoder); secret-key buffers are not
length-checked. -/
theorem claim_C6_amended :
    (∀ (H : Hash) (rand : Nat) (msg skB : Bytes) (aux : Option Bytes), msg.length ≠ 32 →
      signH H rand msg skB aux = Except.error SchnorrError.invalidInput)
    ∧ (∀ (H : Hash) (msg pk sig : Bytes), ¬(msg.length = 32 ∧ pk.length = 32 ∧ sig.length = 64) →
      verifyH H msg pk sig = Except.error SchnorrError.invalidInput)
    ∧ (∀ (H : Hash) (msg skB : Bytes), msg.length ≠ 32 →
      bcrypto410_signH H msg skB = Except.error SchnorrError.invalidInput)
    ∧ (∀ (H : Hash) (msg pk sig : Bytes), msg.length ≠ 32 ∨ sig.length ≠ 64 →
      bcrypto410_verifyH H msg pk sig = Except.error SchnorrError.invalidInput)
    ∧ (∀ (H : Hash) (msg pk sig : Bytes), msg.length = 32 → sig.length = 64 →
      pk.length ≠ 33 → pk.length ≠ 65 →
      bcrypto410_verifyH H msg pk sig = Except.error SchnorrError.invalidInput) := by
  refine ⟨?_, ?_, ?_, ?_, ?_⟩
  · intro H rand msg skB aux hm
    unfold signH
    rw [if_pos (by simp [hm])]
  · intro H msg pk sig hbad
    by_cases h1 : msg.length = 32
    · by_cases h2 : pk.length = 32
      · have h3 : sig.length ≠ 64 := by tauto
        unfold verifyH
        rw [if_neg (by simp [h1]), if_neg (by simp [h2]), if_pos (by simp [h3])]
      · unfold verifyH
        rw [if_neg (by simp [h1]), if_pos (by simp [h2])]
    · unfold verifyH
      rw [if_pos (by simp [h1])]
  · intro H msg skB hm
    unfold bcrypto410_signH
    rw [if_pos (by simp [hm])]
  · intro H msg pk sig hbad
    rcases hbad with hm | hs
    · unfold bcrypto410_verifyH
      rw [if_pos (by simp [hm])]
    · by_cases h1 : msg.length = 32
      · unfold bcrypto410_verifyH
        rw [if_neg (by simp [h1]), if_pos (by simp [hs])]
      · unfold bcrypto410_verifyH
        rw [if_pos (by simp [h1])]
  · intro H msg pk sig hm hs h33 h65
    unfold bcrypto410_verifyH
    rw [if_neg (by simp [hm]), if_neg (by simp [hs])]
    have hD : PublicKey_decode pk = Except.error SchnorrError.invalidInput := by
      unfold PublicKey_decode
      rw [if_neg h33, if_neg h65]
    rw [hD]

set_option maxRecDepth 1000000 in
/-- Witness for C6 (amended) at concrete inputs. -/
theorem claim_C6_amended_witness :
    signH hash_sha256 0 [] (bytes_from_int 1) none = Except.error SchnorrError.invalidInput
    ∧ verifyH hash_sha256 [] [] [] = Except.error SchnorrError.invalidInput
    ∧ bcrypto410_signH hash_sha256 [] (bytes_from_int 1) = Except.error SchnorrError.invalidInput
    ∧ bcrypto410_verifyH hash_sha256 [] [] [] = Except.error SchnorrError.invalidInput
    ∧ bcrypto410_verifyH hash_sha256 msg0 [] (List.replicate 64 0)
        = Except.error SchnorrError.invalidInput := by
  have h := claim_C6_amended
  exact ⟨h.1 hash_sha256 0 [] (bytes_from_int 1) none (by simp),
    h.2.1 hash_sha256 [] [] [] (by simp),
    h.2.2.1 hash_sha256 [] (bytes_from_int 1) (by simp),
    h.2.2.2.1 hash_sha256 [] [] [] (Or.inl (by simp)),
    h.2.2.2.2 hash_sha256 msg0 [] (List.replicate 64 0) (by decide) (by decide)
      (by simp) (by simp)⟩

set_option maxRecDepth 1000000 in
/-- Witness for C3 at concrete inputs (including a public key whose x has no
square root, `x = 5`). -/
theorem claim_C3_witness :
    (∃ b : Bool, verifyH hash_sha256 msg0 (bytes_from_int Gx) (List.replicate 64 0) = Except.ok b)
    ∧ verifyH hash_sha256 msg0 (bytes_from_int 5) (List.replicate 64 0) = Except.ok false
    ∧ verifyH hash_sha256 [] [] [] = Except.error SchnorrError.invalidInput := by
  have h1 := claim_C3 hash_sha256 msg0 (bytes_from_int Gx) (List.replicate 64 0)
    (by decide) (by decide) (by decide)
  have h2 := claim_C3 hash_sha256 msg0 (bytes_from_int 5) (List.replicate 64 0)
    (by decide) (by decide) (by decide)
  exact ⟨h1.1, h2.2.1 (by decide), h1.2.2 [] [] [] (by simp)⟩

set_option maxRecDepth 1000000 in
/-- Witness for C4 at concrete inputs with `r = p ≥ p`. -/
theorem claim_C4_witness :
    verifyH hash_sha256 msg0 (bytes_from_int Gx) (bytes_from_int p ++ List.replicate 32 0)
      = Except.ok false
    ∧ bcrypto410_verifyH hash_sha256 msg0 (2 :: bytes_from_int Gx)
        (bytes_from_int p ++ List.replicate 32 0) = Except.ok false := by
  have h := claim_C4 hash_sha256 msg0 (bytes_from_int Gx) (bytes_from_int p ++ List.replicate 32 0)
    (by decide) (by simp [bytes_from_int_length]) (Or.inl (by decide))
  exact ⟨h.1 (by decide), h.2 (2 :: bytes_from_int Gx) (Or.inl (by simp [bytes_from_int_length]))⟩

set_option maxRecDepth 1000000 in
/-- Witness for C5 at concrete inputs (public key `Gx`, zero signature). -/
theorem claim_C5_witness :
    (∃ b : Bool, verifyH hash_sha256 msg0 (bytes_from_int Gx) (List.replicate 64 0) = Except.ok b)
    ∧ ∃ b : Bool, bcrypto410_verifyH hash_sha256 msg0 (2 :: bytes_from_int Gx)
        (List.replicate 64 0) = Except.ok b := by
  have h := claim_C5 hash_sha256 msg0 (bytes_from_int Gx) (List.replicate 64 0)
    (by decide) (by decide) (by decide) (Gx, Gy) (by decide) (by decide) (by decide)
  exact ⟨⟨_, h.1⟩, ⟨_, h.2 (2 :: bytes_from_int Gx) (Gx, Gy) (by rfl)⟩⟩

set_option maxRecDepth 1000000 in
/-- Witness for C8: with a degenerate hash collaborator that returns all-zero
digests, the derived nonce is zero and both signers abort with the
internal-failure kind. -/
theorem claim_C8_witness :
    signH (fun _ => List.replicate 32 0) 0 msg0 (bytes_from_int 1) none
      = Except.error SchnorrError.internalFailure
    ∧ bcrypto410_signH (fun _ => List.replicate 32 0) msg0 (bytes_from_int 1)
      = Except.error SchnorrError.internalFailure := by
  have h := claim_C8 (fun _ => List.replicate 32 0) 0 msg0 (bytes_from_int 1) none
    (by decide) (by decide)
  exact ⟨h.1 (by decide), h.2.1 (by decide)⟩

set_option maxRecDepth 1000000 in
/-- Witness for C10 with an empty (0-byte) auxiliary-randomness buffer. -/
theorem claim_C10_witness :
    signH hash_sha256 0 msg0 (bytes_from_int 1) (some []) ≠
      Except.error SchnorrError.invalidInput :=
  (claim_C10 hash_sha256 0 msg0 (bytes_from_int 1) [] (by decide) (by decide)).1


lemma int_from_bytes_beBytes : ∀ (w v : Nat), v < 256 ^ w → int_from_bytes (beBytes w v) = v := by
  intro w
  induction w with
  | zero =>
    intro v hv
    have hv0 : v = 0 := Nat.lt_one_iff.mp hv
    subst hv0
    rfl
  | succ w ih =>
    intro v hv
    show int_from_bytes (beBytes w (v / 256) ++ [v % 256]) = v
    have hdiv : v / 256 < 256 ^ w := by
      rw [Nat.div_lt_iff_lt_mul (by norm_num)]
      calc v < 256 ^ (w + 1) := hv
        _ = 256 ^ w * 256 := by ring
    have hih := ih (v / 256) hdiv
    unfold int_from_bytes at hih ⊢
    rw [List.foldl_append, hih]
    simp only [List.foldl_cons, List.foldl_nil]
    omega

set_option maxRecDepth 40000 in
lemma p_lt_pow : p < 2 ^ 256 := by norm_num [p]

set_option maxRecDepth 40000 in
lemma pow256_eq : (256 : Nat) ^ 32 = 2 ^ 256 := by norm_num

lemma int_bytes_from_int {x : Nat} (hx : x < 2 ^ 256) :
    int_from_bytes (bytes_from_int x) = x :=
  int_from_bytes_beBytes 32 x (by rw [pow256_eq]; exact hx)

set_option maxRecDepth 40000 in
lemma p_odd : p % 2 = 1 := by norm_num [p]

set_option maxRecDepth 40000 in
lemma p_plus_one_div : (p + 1) / 4 * 2 = (p + 1) / 2 := by norm_num [p]

set_option maxRecDepth 40000 in
lemma p_halves : (p + 1) / 2 = (p - 1) / 2 + 1 := by norm_num [p]

set_option maxRecDepth 40000 in
lemma p_minus_one_even : 2 * ((p - 1) / 2) = p - 1 := by norm_num [p]

set_option maxRecDepth 40000 in
lemma p_plus_one_div4_lt : (p + 1) / 4 < 2 ^ 256 := by norm_num [p]

set_option maxRecDepth 40000 in
lemma p_half_ne : (p + 1) / 2 ≠ 0 := by norm_num [p]

lemma lift_x_spec [Fact (Nat.Prime p)] {x y : Nat} (hx : x < p) (hy : y < p)
    (hcurve : y * y % p = (x * x % p * x + 7) % p) :
    lift_x (bytes_from_int x) = some (x, if y % 2 = 0 then y else p - y) := by
  unfold lift_x
  simp only [int_bytes_from_int (lt_trans hx p_lt_pow)]
  rw [if_neg (not_le.mpr hx)]
  set c := (x * x % p * x + 7) % p with hc
  set y₀ := powMod 256 c ((p + 1) / 4) p with hy₀def
  have hclt : c < p := Nat.mod_lt _ p_pos
  have hy₀lt : y₀ < p := powMod_lt _ _ _ _ p_pos
  have hccast : (c : ZMod p) = (y : ZMod p) ^ 2 := by
    have h1 := congrArg (fun t : Nat => (t : ZMod p)) hcurve
    simp only at h1
    rw [hc, ← h1]
    push_cast [ZMod.natCast_mod]
    ring
  have hy₀cast : (y₀ : ZMod p) = (c : ZMod p) ^ ((p + 1) / 4) := by
    rw [hy₀def, powMod_correct _ _ _ _ p_plus_one_div4_lt, ZMod.natCast_mod, Nat.cast_pow]
  have hsq : (y₀ : ZMod p) ^ 2 = (c : ZMod p) := by
    rw [hy₀cast, ← pow_mul, p_plus_one_div]
    by_cases hc0 : (c : ZMod p) = 0
    · rw [hc0]
      exact zero_pow p_half_ne
    · have hyne : (y : ZMod p) ≠ 0 := by
        intro h0
        apply hc0
        rw [hccast, h0]
        ring
      rw [p_halves, pow_succ]
      have hone : (c : ZMod p) ^ ((p - 1) / 2) = 1 := by
        rw [hccast, ← pow_mul, p_minus_one_even]
        exact ZMod.pow_card_sub_one_eq_one hyne
      rw [hone, one_mul]
  have hcheck : y₀ * y₀ % p = c := by
    apply cast_eq_of_lt (Nat.mod_lt _ p_pos) hclt
    push_cast [ZMod.natCast_mod]
    calc (y₀ : ZMod p) * y₀ = (y₀ : ZMod p) ^ 2 := by ring
      _ = c := hsq
  rw [if_pos hcheck]
  have hfact : ((y₀ : ZMod p) - y) * ((y₀ : ZMod p) + y) = 0 := by
    have hyy2 : (y₀ : ZMod p) ^ 2 = (y : ZMod p) ^ 2 := hsq.trans hccast
    linear_combination hyy2
  have hyy : (y₀ : ZMod p) = (y : ZMod p) ∨ (y₀ : ZMod p) = -(y : ZMod p) := by
    rcases mul_eq_zero.mp hfact with h | h
    · exact Or.inl (sub_eq_zero.mp h)
    · exact Or.inr (eq_neg_of_add_eq_zero_left h)
  rcases hyy with heq | hneg
  · have hy₀y : y₀ = y := cast_eq_of_lt hy₀lt hy heq
    rw [hy₀y]
  · by_cases hy0 : y = 0
    · subst hy0
      have hy₀0 : y₀ = 0 := cast_eq_of_lt hy₀lt p_pos (by rw [hneg]; norm_num)
      rw [hy₀0]
    · have hy₀y : y₀ = p - y := by
        apply cast_eq_of_lt hy₀lt (by omega)
        rw [hneg, Nat.cast_sub (le_of_lt hy), ZMod.natCast_self, zero_sub]
      rw [hy₀y]
      have hp2 := p_odd
      by_cases hpar : y % 2 = 0
      · rw [if_neg (show ¬((p - y) % 2 = 0) by omega), if_pos hpar]
        have hpy : p - (p - y) = y := by omega
        rw [hpy]
      · rw [if_pos (show (p - y) % 2 = 0 by omega), if_neg hpar]

set_option maxRecDepth 40000 in
/-- C7: the signer's key normalization keeps `d0` when `G·d0` has even y and
replaces it by `n − d0` otherwise; the resulting point `G·d` always has even
y and the same x-only encoding as `G·d0`. -/
theorem claim_C7 (d0 : Nat) (h1 : 1 ≤ d0) (h2 : d0 ≤ n - 1) :
    sign_seckey d0 = (if has_even_y (mulG d0) then d0 else n - d0)
    ∧ has_even_y (mulG (sign_seckey d0)) = true
    ∧ bytes_from_point (mulG (sign_seckey d0)) = bytes_from_point (mulG d0) := by
  haveI : Fact (Nat.Prime p) := ⟨prime_secp_p⟩
  refine ⟨rfl, ?_⟩
  obtain ⟨x, y, hmul, hx, hy, hns, hQ⟩ := mulG_some rel_G h1 h2
  by_cases he : has_even_y (mulG d0)
  · have hsk : sign_seckey d0 = d0 := by
      unfold sign_seckey
      rw [if_pos he]
    rw [hsk]
    exact ⟨he, rfl⟩
  · have hsk : sign_seckey d0 = n - d0 := by
      unfold sign_seckey
      rw [if_neg he]
    have hodd : y % 2 ≠ 0 := by
      rw [hmul] at he
      simpa [has_even_y] using he
    have hyne : ¬(y = 0) := by omega
    have hneg := mulG_sub_neg rel_G h1 h2 hmul
    rw [if_neg hyne] at hneg
    rw [hsk, hneg]
    have hp2 := p_odd
    constructor
    · simp only [has_even_y]
      have : (p - y) % 2 = 0 := by omega
      simp [this]
    · unfold bytes_from_point
      rw [hmul]
      rfl

set_option maxRecDepth 40000 in
/-- Witness for C7 at the concrete secret scalar 3. -/
theorem claim_C7_witness :
    sign_seckey 3 = (if has_even_y (mulG 3) then 3 else n - 3)
    ∧ has_even_y (mulG (sign_seckey 3)) = true
    ∧ bytes_from_point (mulG (sign_seckey 3)) = bytes_from_point (mulG 3) :=
  claim_C7 3 (by norm_num) (by norm_num [n])

end Secp256k1

namespace Secp256k1

lemma take_app32 {r s : Bytes} (h : r.length = 32) : (r ++ s).take 32 = r := by
  rw [← h]
  exact List.take_left r s

lemma drop_app32 {r s : Bytes} (h : r.length = 32) : (r ++ s).drop 32 = s := by
  rw [← h]
  exact List.drop_left r s

lemma has_even_y_some {x y : Nat} : has_even_y (some (x, y)) = true ↔ y % 2 = 0 := by
  simp [has_even_y]

lemma rel_some_eq [Fact (Nat.Prime p)] {P : Pt} {x y : Nat}
    {h : W.Nonsingular (x : ZMod p) (y : ZMod p)}
    (hx : x < p) (hy : y < p)
    (hrel : Rel P (WeierstrassCurve.Affine.Point.some h)) : P = some (x, y) := by
  cases P with
  | none =>
    have h0 : WeierstrassCurve.Affine.Point.some h = 0 := hrel
    exact absurd h0 (WeierstrassCurve.Affine.Point.some_ne_zero h)
  | some ab =>
    obtain ⟨a, b⟩ := ab
    obtain ⟨ha, hb, h2, heq⟩ := hrel
    rw [WeierstrassCurve.Affine.Point.some.injEq] at heq
    have hax : a = x := cast_eq_of_lt ha hx (by exact_mod_cast heq.1.symm)
    have hby : b = y := cast_eq_of_lt hb hy (by exact_mod_cast heq.2.symm)
    rw [hax, hby]

lemma rel_neg_some_eq [Fact (Nat.Prime p)] {P : Pt} {x y : Nat}
    {h : W.Nonsingular (x : ZMod p) (y : ZMod p)}
    (hx : x < p) (hy : y < p) (hy0 : y ≠ 0)
    (hrel : Rel P (-WeierstrassCurve.Affine.Point.some h)) : P = some (x, p - y) := by
  rw [WeierstrassCurve.Affine.Point.neg_some] at hrel
  cases P with
  | none =>
    have h0 : WeierstrassCurve.Affine.Point.some _ = 0 := hrel
    exact absurd h0 (WeierstrassCurve.Affine.Point.some_ne_zero _)
  | some ab =>
    obtain ⟨a, b⟩ := ab
    obtain ⟨ha, hb, h2, heq⟩ := hrel
    rw [WeierstrassCurve.Affine.Point.some.injEq] at heq
    have hax : a = x := cast_eq_of_lt ha hx (by exact_mod_cast heq.1.symm)
    have hbcast : (b : ZMod p) = -(y : ZMod p) := by
      rw [← heq.2, W_negY]
    have hpycast : ((p - y : Nat) : ZMod p) = -(y : ZMod p) := by
      rw [Nat.cast_sub (le_of_lt hy), ZMod.natCast_self, zero_sub]
    have hby : b = p - y := cast_eq_of_lt hb (by omega) (hbcast.trans hpycast.symm)
    rw [hax, hby]

lemma sign_seckey_spec [Fact (Nat.Prime p)] {Qg : W.Point} (hG : Rel G Qg) {d0 : Nat}
    (h1 : 1 ≤ d0) (h2 : d0 ≤ n - 1) :
    1 ≤ sign_seckey d0 ∧ sign_seckey d0 ≤ n - 1 ∧
    ∃ x ye, mulG (sign_seckey d0) = some (x, ye) ∧ x < p ∧ ye < p ∧ ye % 2 = 0 ∧
      ptX (mulG d0) = x ∧
      ∃ h : W.Nonsingular (x : ZMod p) (ye : ZMod p),
        (sign_seckey d0) • Qg = WeierstrassCurve.Affine.Point.some h := by
  have hn2 := n_two_le
  obtain ⟨x, y, hmul, hx, hy, hns, hQ⟩ := mulG_some hG h1 h2
  by_cases he : has_even_y (mulG d0)
  · have hsk : sign_seckey d0 = d0 := by
      unfold sign_seckey
      rw [if_pos he]
    rw [hmul] at he
    have hyev : y % 2 = 0 := has_even_y_some.mp he
    rw [hsk]
    exact ⟨h1, h2, x, y, hmul, hx, hy, hyev, by rw [hmul]; rfl, hns, hQ⟩
  · have hsk : sign_seckey d0 = n - d0 := by
      unfold sign_seckey
      rw [if_neg he]
    rw [hmul] at he
    have hyodd : ¬(y % 2 = 0) := fun hc => he (has_even_y_some.mpr hc)
    have hy0 : y ≠ 0 := by omega
    have hneg := mulG_sub_neg hG h1 h2 hmul
    rw [if_neg hy0] at hneg
    obtain ⟨x', y', hmul', hx', hy', hns', hQ'⟩ := mulG_some hG
      (show 1 ≤ n - d0 by omega) (show n - d0 ≤ n - 1 by omega)
    rw [hneg] at hmul'
    injection hmul' with hpair
    injection hpair with hxx hyy
    rw [hsk]
    refine ⟨by omega, by omega, x', y', by rw [hneg, hxx, hyy], by omega, by omega, ?_, ?_, hns', hQ'⟩
    · rw [← hyy]
      have hp2 := p_odd
      omega
    · rw [hmul, ← hxx]
      rfl

end Secp256k1

namespace Secp256k1

set_option maxRecDepth 8000 in
/-- Soundness of the BIP-340 signer against the BIP-340 verifier, for any
hash primitive: a signature produced by `signH` verifies under the matching
x-only public key. -/
lemma schnorr_sound (H : Hash) (rand d0 : Nat) (msg a : Bytes)
    (h1 : 1 ≤ d0) (h2 : d0 ≤ n - 1) (hm : msg.length = 32) (sig : Bytes)
    (hs : signH H rand msg (bytes_from_int d0) (some a) = Except.ok sig) :
    verifyH H msg (xOnlyPubkey d0) sig = Except.ok true := by
  haveI : Fact (Nat.Prime p) := ⟨prime_secp_p⟩
  have hn2 := n_two_le
  have hd0lt : d0 < 2 ^ 256 := by
    have := n_lt_pow
    omega
  have hrt : int_from_bytes (bytes_from_int d0) = d0 := int_bytes_from_int hd0lt
  unfold signH at hs
  rw [if_neg (by simp [hm]), hrt] at hs
  rw [if_neg (not_not_intro ⟨h1, h2⟩)] at hs
  by_cases hk0 : sign_nonce H rand msg (bytes_from_int d0) (some a) = 0
  · rw [if_pos hk0] at hs
    cases hs
  · rw [if_neg hk0] at hs
    rw [Except.ok.injEq] at hs
    subst hs
    set k0 := sign_nonce H rand msg (bytes_from_int d0) (some a) with hk0def
    have hk0lt : k0 < n := by
      rw [hk0def]
      unfold sign_nonce
      exact Nat.mod_lt _ (by omega)
    have hk0ge : 1 ≤ k0 := by omega
    obtain ⟨hd1, hd2, Px, Pey, hPmul, hPx, hPey, hPeyev, hPtX, hPns, hPQ⟩ :=
      sign_seckey_spec rel_G h1 h2
    obtain ⟨Rx, Ry, hRmul, hRx, hRy, hRns, hRQ⟩ := mulG_some rel_G hk0ge (by omega)
    rw [hRmul]
    unfold xOnlyPubkey
    simp only [bytes_from_point]
    rw [hPtX, show ptX (some (Rx, Ry)) = Rx from rfl]
    set e := int_from_bytes (tagged_hashH H tagChallenge
      (bytes_from_int Rx ++ bytes_from_int Px ++ msg)) % n with hedef
    set k := (if ¬has_even_y (some (Rx, Ry)) = true then n - k0 else k0) with hkdef
    set s := (k + e * sign_seckey d0) % n with hsdef
    have helt : e < n := by
      rw [hedef]
      exact Nat.mod_lt _ (by omega)
    have hslt : s < n := by
      rw [hsdef]
      exact Nat.mod_lt _ (by omega)
    have hk1 : 1 ≤ k ∧ k ≤ n - 1 := by
      rw [hkdef]
      split
      · omega
      · omega
    unfold verifyH
    rw [if_neg (by simp [hm]), if_neg (by simp [bytes_from_int_length]),
        if_neg (by simp [bytes_from_int_length])]
    have hcurveP : Pey * Pey % p = (Px * Px % p * Px + 7) % p :=
      exec_of_equation hPns.1
    have hlift : lift_x (bytes_from_int Px) = some (Px, Pey) := by
      have hL := lift_x_spec hPx hPey hcurveP
      rwa [if_pos hPeyev] at hL
    rw [hlift]
    dsimp only
    rw [take_app32 (bytes_from_int_length Rx), drop_app32 (bytes_from_int_length Rx)]
    rw [int_bytes_from_int (lt_trans hRx p_lt_pow), int_bytes_from_int (lt_trans hslt n_lt_pow)]
    rw [if_neg (by push_neg; exact ⟨hRx, hslt⟩)]
    rw [← hedef]
    have hrelP : Rel (some (Px, Pey))
        (sign_seckey d0 • WeierstrassCurve.Affine.Point.some G_nonsingular) :=
      ⟨hPx, hPey, hPns, hPQ⟩
    have hrel1 : Rel (mulG s) (s • WeierstrassCurve.Affine.Point.some G_nonsingular) :=
      mulG_rel rel_G s (lt_trans hslt n_lt_pow)
    have hrel2 := rel_mul 256 (n - e) (lt_of_le_of_lt (Nat.sub_le n e) n_lt_pow) hrelP
    have hrelv := rel_add hrel1 hrel2
    have halg : s • (WeierstrassCurve.Affine.Point.some G_nonsingular)
        + (n - e) • (sign_seckey d0 • WeierstrassCurve.Affine.Point.some G_nonsingular)
        = k • WeierstrassCurve.Affine.Point.some G_nonsingular := by
      rw [← mul_nsmul]
      rw [hsdef, smul_mod_n rel_G, ← add_nsmul]
      have hE : (k + e * sign_seckey d0 + sign_seckey d0 * (n - e)) % n = k % n := by
        have h0 : sign_seckey d0 * (n - e) + sign_seckey d0 * e = sign_seckey d0 * n := by
          rw [← Nat.mul_add, Nat.sub_add_cancel (le_of_lt helt)]
        have h1 : k + e * sign_seckey d0 + sign_seckey d0 * (n - e) = k + sign_seckey d0 * n := by
          rw [mul_comm e (sign_seckey d0)]
          omega
        rw [h1, Nat.add_mul_mod_self_right]
      calc (k + e * sign_seckey d0 + sign_seckey d0 * (n - e))
            • (WeierstrassCurve.Affine.Point.some G_nonsingular)
          = ((k + e * sign_seckey d0 + sign_seckey d0 * (n - e)) % n)
            • (WeierstrassCurve.Affine.Point.some G_nonsingular) := (smul_mod_n rel_G _).symm
        _ = (k % n) • (WeierstrassCurve.Affine.Point.some G_nonsingular) := by rw [hE]
        _ = k • (WeierstrassCurve.Affine.Point.some G_nonsingular) := by
            rw [Nat.mod_eq_of_lt (by omega)]
    by_cases hRyev : Ry % 2 = 0
    · have hkk : k = k0 := by
        rw [hkdef, if_neg (not_not_intro (has_even_y_some.mpr hRyev))]
      have hkQ : k • (WeierstrassCurve.Affine.Point.some G_nonsingular)
          = WeierstrassCurve.Affine.Point.some hRns := by
        rw [hkk]
        exact hRQ
      rw [hkQ] at halg
      rw [halg] at hrelv
      have hRveq := rel_some_eq hRx hRy hrelv
      rw [hRveq]
      dsimp only
      rw [if_pos ⟨hRyev, rfl⟩]
    · have hRy0 : Ry ≠ 0 := by omega
      have hne : ¬ has_even_y (some (Rx, Ry)) = true := fun hc => hRyev (has_even_y_some.mp hc)
      have hkk : k = n - k0 := by
        rw [hkdef, if_pos hne]
      have hksum : k • (WeierstrassCurve.Affine.Point.some G_nonsingular)
          = -(k0 • (WeierstrassCurve.Affine.Point.some G_nonsingular)) := by
        rw [hkk]
        have hsum : (n - k0) • (WeierstrassCurve.Affine.Point.some G_nonsingular)
            + k0 • (WeierstrassCurve.Affine.Point.some G_nonsingular) = 0 := by
          rw [← add_nsmul, Nat.sub_add_cancel (by omega)]
          exact nsmul_G_zero rel_G
        exact eq_neg_of_add_eq_zero_left hsum
      rw [hRQ] at hksum
      rw [hksum] at halg
      rw [halg] at hrelv
      have hRveq := rel_neg_some_eq hRx hRy hRy0 hrelv
      rw [hRveq]
      dsimp only
      have hp2 := p_odd
      rw [if_pos ⟨by omega, rfl⟩]

end Secp256k1

namespace Secp256k1

set_option maxRecDepth 2000000 in
/-- The BIP-340 signer evaluated on the known vector (secret key `3`,
all-zero 32-byte message, all-zero 32-byte auxiliary randomness): a heavy
concrete evaluation shared by the known-vector results. -/
lemma sign_vector0 : sign 0 msg0 (bytes_from_int 3) (some aux0) = Except.ok sigVec := by
  rfl

set_option maxRecDepth 200000 in
/-- The x-only public key of secret key `3` is the stated vector value. -/
lemma xOnlyPubkey_vector0 : xOnlyPubkey 3 = pkVec := by
  decide

/-- C1: for every secret key `d0` in `[1, n-1]` and 32-byte message, a
signature produced by `sign` (with any auxiliary randomness) verifies as
`true` under the matching x-only public key. -/
theorem claim_C1 (rand d0 : Nat) (msg a : Bytes)
    (h1 : 1 ≤ d0) (h2 : d0 ≤ n - 1) (hm : msg.length = 32) (sig : Bytes)
    (hs : sign rand msg (bytes_from_int d0) (some a) = Except.ok sig) :
    verify msg (xOnlyPubkey d0) sig = Except.ok true :=
  schnorr_sound hash_sha256 rand d0 msg a h1 h2 hm sig hs

set_option maxRecDepth 40000 in
/-- Witness for C1 at the known vector (secret key `3`). -/
theorem claim_C1_witness :
    sign 0 msg0 (bytes_from_int 3) (some aux0) = Except.ok sigVec
    ∧ verify msg0 (xOnlyPubkey 3) sigVec = Except.ok true :=
  ⟨sign_vector0, claim_C1 0 3 msg0 aux0 (by decide) (by decide) (by decide) sigVec sign_vector0⟩

/-- C2, counterexample: on the known vector the signer does return a 64-byte
signature, but it is NOT the byte string stated by the spec: the spec literal
has 127 hex digits and is missing the final digit `0`. -/
theorem claim_C2_counterexample :
    sign 0 msg0 (bytes_from_int 3) (some aux0) = Except.ok sigVec ∧ sigVec ≠ sigStated :=
  ⟨sign_vector0, by decide⟩

set_option maxRecDepth 40000 in
/-- C2, amended: on the known vector the signer returns the 64-byte signature
`E907831F80848D1069A5371B402410364BDF1C5F8307B0084C55F1CE2DCA821525F66A4A85EA
8B71E482A74F382D2CE5EBEEE8FDB2172F477DF4900D310536C0`, the x-only public key
is the stated `F9308A019258C31049344F85F89D5229B531C845836F99B08601F113BCE036
F9`, and `verify` accepts the triple. -/
theorem claim_C2_amended :
    sign 0 msg0 (bytes_from_int 3) (some aux0) = Except.ok sigVec
    ∧ xOnlyPubkey 3 = pkVec
    ∧ verify msg0 pkVec sigVec = Except.ok true := by
  refine ⟨sign_vector0, xOnlyPubkey_vector0, ?h⟩
  have h := schnorr_sound hash_sha256 0 3 msg0 aux0 (by decide) (by decide) (by decide)
    sigVec sign_vector0
  rwa [show xOnlyPubkey 3 = pkVec from xOnlyPubkey_vector0] at h

end Secp256k1
